import Mathlib

/-!
The eRPC raw transport datapath.

A shallow embedding of `src/transport_impl/raw/raw_transport_datapath.cc`
(`RawTransport::tx_burst`, `tx_flush`, `rx_burst`, `post_recvs`) and the
properties of its descriptor construction, doorbell chain, completion
tracking and receive replenishment.

Conventions of the embedding:

* arrays owned by the transport (`send_wr`, `send_sgl`, `recv_cqe_arr`) are
  functions from the slot index; their declared sizes live in
  `raw_transport.h`, so the capacity is the parameter `kPostlist` and an
  access outside it stops the run with `ErrKind.out_of_bounds`;
* a pointer into `send_wr` is `Option Nat` (`none` is `nullptr`,
  `some j` is `&send_wr[j]`); a pointer to a row of `send_sgl` is the row
  index; memory addresses are natural numbers;
* `assert` is a checked precondition: a failing assertion stops the run;
* a call into the NIC library is appended to `hw_log`, and its return code is
  an argument of the embedded function;
* `static_cast<uint32_t>` is `% 2 ^ 32`; `size_t` sums of caller-supplied
  amounts, and the `uint64_t` address of a byte at a caller-supplied offset,
  are `% 2 ^ 64`.
-/

namespace erpc

/-! ## Constants -/

/-- Value of `IBV_SEND_SIGNALED` in `enum ibv_send_flags` (libibverbs). -/
def IBV_SEND_SIGNALED : Nat := 2

/-- Value of `IBV_SEND_INLINE` in `enum ibv_send_flags` (libibverbs). -/
def IBV_SEND_INLINE : Nat := 8

/-- Value of `IBV_WR_SEND` in `enum ibv_wr_opcode` (libibverbs). -/
def IBV_WR_SEND : Nat := 2

/-- Compile-time constants of the transport. They are declared in headers
that are not part of the datapath file, so they are parameters here. -/
structure Config where
  /-- Maximum payload bytes of one packet. -/
  kMaxDataPerPkt : Nat
  /-- Largest fragment length that is sent inline. -/
  kMaxInline : Nat
  /-- The value of `sizeof(pkthdr_t)`. -/
  sizeof_pkthdr : Nat
  /-- Number of usable slots of the send descriptor ring. -/
  kPostlist : Nat
  /-- Logical depth of the receive ring. -/
  kNumRxRingEntries : Nat
  /-- Depth of the polled receive completion queue. -/
  kRecvCQDepth : Nat
  /-- Stride threshold of the multi-packet receive queue. -/
  kStridesPerWQE : Nat
  /-- Number of multi-packet receive descriptors. -/
  kRQDepth : Nat
  /-- Bytes of the eRPC header that follow the transport header. -/
  kERpcHdrBytes : Nat
  /-- Base of the UDP source ports. -/
  kBaseRawUDPPort : Nat
  /-- The value of `sizeof(eth_hdr_t)`. -/
  sizeof_eth_hdr : Nat
  /-- The value of `sizeof(ipv4_hdr_t)`. -/
  sizeof_ipv4_hdr : Nat
  /-- Modulus of the completion cursor. -/
  kCQESnapshotCycle : Nat
  /-- Completion sampling policy: whether the descriptor posted as number
  `nb_tx` requests a completion. -/
  signal_policy : Nat → Bool

/-! ## Data model -/

/-- A message buffer as the datapath sees it: the payload address `buf`, the
field `data_size`, and the results of the accessors `is_valid()`,
`get_pkthdr_0()` and `get_pkthdr_n(n)`, which are defined outside the
datapath file. -/
structure MsgBuffer where
  buf : Nat
  data_size : Nat
  is_valid : Bool
  get_pkthdr_0 : Nat
  get_pkthdr_n : Nat → Nat

/-- Peer addressing, `raw_routing_info_t`. -/
structure raw_routing_info_t where
  mac : Nat
  ipv4_addr : Nat
  udp_port : Nat

/-- Local addressing, the `resolve` member of the transport. -/
structure resolve_t where
  mac_addr : Nat
  ipv4_addr : Nat

/-- One element of the array handed to `tx_burst`. -/
structure tx_burst_item_t where
  routing_info : raw_routing_info_t
  msg_buffer : MsgBuffer
  offset : Nat
  data_bytes : Nat

/-- Scatter-gather entry, `struct ibv_sge`. -/
structure ibv_sge where
  addr : Nat
  length : Nat
  lkey : Nat

/-- Send work request, `struct ibv_send_wr` (the fields the datapath uses). -/
structure ibv_send_wr where
  next : Option Nat
  sg_list : Nat
  num_sge : Nat
  opcode : Nat
  send_flags : Nat

/-- What a header generator leaves at the address it is given. -/
inductive frame_hdr where
  | unwritten
  | eth (src_mac dst_mac : Nat)
  | ipv4 (src_ip dst_ip data_size : Nat)
  | udp (src_port dst_port data_size : Nat)
deriving DecidableEq

/-- Completion cursor read from a completion queue entry. -/
abbrev cqe_snapshot_t := Nat

/-- A call into the NIC library. `post_send` is
`ibv_post_send(send_qp, &send_wr[head], &bad_wr)` together with the descriptor
memory the device sees at that moment; `recv_burst` is
`wq_family->recv_burst(wq, &mp_recv_sge[sge_idx], num)`. -/
inductive HwCall where
  | post_send (head : Nat) (send_wr : Nat → ibv_send_wr) (send_sgl : Nat → Nat → ibv_sge)
  | recv_burst (sge_idx : Nat) (num : Nat)

/-- The members of `RawTransport` that the datapath reads or writes, the
header memory of the message buffers, and the log of NIC calls. -/
structure RawTransport where
  send_wr : Nat → ibv_send_wr
  send_sgl : Nat → Nat → ibv_sge
  nb_tx : Nat
  resolve : resolve_t
  rpc_id : Nat
  hdr_mem : Nat → frame_hdr
  recv_cqe_arr : Nat → cqe_snapshot_t
  cqe_idx : Nat
  prev_snapshot : cqe_snapshot_t
  recvs_to_post : Nat
  mp_sge_idx : Nat
  hw_log : List HwCall

/-- Why a run stopped. -/
inductive ErrKind where
  | assert_failed
  | out_of_bounds
  | fatal_exit
deriving DecidableEq

/-- A stopped run: the reason and the NIC calls issued before it stopped. -/
structure Abort where
  kind : ErrKind
  hw_log : List HwCall

/-- Array store `f[i] = v`. -/
def set_at {α : Type} (f : Nat → α) (i : Nat) (v : α) : Nat → α :=
  fun j => if j = i then v else f j

/-! ## Helpers that live outside the datapath file -/

/-- Modelled from the spec: `get_signaled_flag` is declared in
`raw_transport.h`. A sampling policy selects which posted descriptors request
a completion; the result is the signaling flag or zero, and the count of
posted descriptors advances. -/
def get_signaled_flag (cfg : Config) (s : RawTransport) : Nat × RawTransport :=
  (if cfg.signal_policy s.nb_tx then IBV_SEND_SIGNALED else 0,
   { s with nb_tx := s.nb_tx + 1 })

/-- Modelled from the spec: `pkthdr_t` is declared outside the datapath file.
The headroom is reserved at the front of every packet header, so
`&pkthdr->headroom[0]` is the address of the header itself. -/
def headroom (pkthdr : Nat) : Nat := pkthdr

/-- Modelled from the spec: `gen_eth_header` is defined outside the datapath
file. It writes a link-layer header from its arguments, in place. -/
def gen_eth_header (mem : Nat → frame_hdr) (eth_hdr src_mac dst_mac : Nat) :
    Nat → frame_hdr :=
  set_at mem eth_hdr (frame_hdr.eth src_mac dst_mac)

/-- Modelled from the spec: `gen_ipv4_header` is defined outside the datapath
file. It writes a network-layer header carrying the given length. -/
def gen_ipv4_header (mem : Nat → frame_hdr) (ipv4_hdr src_ip dst_ip data_size : Nat) :
    Nat → frame_hdr :=
  set_at mem ipv4_hdr (frame_hdr.ipv4 src_ip dst_ip data_size)

/-- Modelled from the spec: `gen_udp_header` is defined outside the datapath
file. It writes a transport-layer header carrying the given ports and
length. -/
def gen_udp_header (mem : Nat → frame_hdr) (udp_hdr src_port dst_port data_size : Nat) :
    Nat → frame_hdr :=
  set_at mem udp_hdr (frame_hdr.udp src_port dst_port data_size)

/-- Modelled from the spec: `snapshot_cqe` is declared in `raw_transport.h`.
It reads the completion cursor stored in a completion queue entry. -/
def snapshot_cqe (cqe : cqe_snapshot_t) : cqe_snapshot_t := cqe

/-- Modelled from the spec: `get_cqe_cycle_delta` is declared in
`raw_transport.h`. It is the forward, wraparound-aware distance from the
previous cursor to the current one. -/
def get_cqe_cycle_delta (cfg : Config) (prev cur : cqe_snapshot_t) : Nat :=
  (cur % cfg.kCQESnapshotCycle + cfg.kCQESnapshotCycle - prev % cfg.kCQESnapshotCycle)
    % cfg.kCQESnapshotCycle

/-! ## `tx_burst` -/

/-- The `assert` statement. -/
def c_assert (s : RawTransport) (b : Bool) : Except Abort Unit :=
  if b then .ok () else .error ⟨ErrKind.assert_failed, s.hw_log⟩

/-- Bounds of an array access. -/
def c_index (s : RawTransport) (i size : Nat) : Except Abort Unit :=
  if i < size then .ok () else .error ⟨ErrKind.out_of_bounds, s.hw_log⟩

/-- The body of the `for` loop of `tx_burst` for index `i`. The trace
`printf` of the source has no effect on the state and is left out. -/
def tx_burst_iter (cfg : Config) (i : Nat) (item : tx_burst_item_t) (s : RawTransport) :
    Except Abort RawTransport := do
  let msg_buffer := item.msg_buffer
  c_assert s msg_buffer.is_valid
  c_assert s (decide (item.data_bytes ≤ cfg.kMaxDataPerPkt))
  c_assert s (decide ((item.offset + item.data_bytes) % 2 ^ 64 ≤ msg_buffer.data_size))
  -- Verify constant fields of work request
  c_index s i cfg.kPostlist
  let mut wr := s.send_wr i
  let mut sgl := s.send_sgl i
  c_assert s (decide (wr.next = some (i + 1)))
  c_assert s (decide (wr.opcode = IBV_WR_SEND))
  c_assert s (decide (wr.sg_list = i))
  -- Set signaling flag. The work request is non-inline by default.
  let (flag, s) := get_signaled_flag cfg s
  wr := { wr with send_flags := flag }
  let mut pkthdr := 0
  if item.offset = 0 then
    -- This is the first packet, so we need only 1 SGE.
    pkthdr := msg_buffer.get_pkthdr_0
    sgl := set_at sgl 0 { sgl 0 with addr := pkthdr }
    sgl := set_at sgl 0 { sgl 0 with length := (cfg.sizeof_pkthdr + item.data_bytes) % 2 ^ 32 }
    c_assert s (decide ((sgl 0).lkey = 0))
    -- Only single-SGE work requests are inlined
    wr := { wr with send_flags :=
      wr.send_flags ||| (if (sgl 0).length ≤ cfg.kMaxInline then IBV_SEND_INLINE else 0) }
    wr := { wr with num_sge := 1 }
  else
    -- This is not the first packet, so we need 2 SGEs.
    pkthdr := msg_buffer.get_pkthdr_n (item.offset / cfg.kMaxDataPerPkt)
    sgl := set_at sgl 0 { sgl 0 with addr := pkthdr }
    sgl := set_at sgl 0 { sgl 0 with length := cfg.sizeof_pkthdr % 2 ^ 32 }
    c_assert s (decide ((sgl 0).lkey = 0))
    sgl := set_at sgl 1 { sgl 1 with addr := (msg_buffer.buf + item.offset) % 2 ^ 64 }
    sgl := set_at sgl 1 { sgl 1 with length := item.data_bytes % 2 ^ 32 }
    c_assert s (decide ((sgl 1).lkey = 0))
    wr := { wr with num_sge := 2 }
  let raw_rinfo := item.routing_info
  let eth_hdr := headroom pkthdr
  let mem := gen_eth_header s.hdr_mem eth_hdr s.resolve.mac_addr raw_rinfo.mac
  let ipv4_hdr := eth_hdr + cfg.sizeof_eth_hdr
  let mem := gen_ipv4_header mem ipv4_hdr s.resolve.ipv4_addr raw_rinfo.ipv4_addr
    (cfg.kERpcHdrBytes + item.data_bytes)
  let udp_hdr := ipv4_hdr + cfg.sizeof_ipv4_hdr
  let mem := gen_udp_header mem udp_hdr (cfg.kBaseRawUDPPort + s.rpc_id) raw_rinfo.udp_port
    (cfg.kERpcHdrBytes + item.data_bytes)
  return { s with send_wr := set_at s.send_wr i wr, send_sgl := set_at s.send_sgl i sgl,
                  hdr_mem := mem }

/-- The `for` loop of `tx_burst`, from index `i` on, over the remaining
items. -/
def tx_burst_loop (cfg : Config) :
    Nat → List tx_burst_item_t → RawTransport → Except Abort RawTransport
  | _, [], s => .ok s
  | i, item :: rest, s =>
    match tx_burst_iter cfg i item s with
    | .ok s1 => tx_burst_loop cfg (i + 1) rest s1
    | .error e => .error e

/-- `RawTransport::tx_burst(tx_burst_arr, num_pkts)`: the array is the list
of its `num_pkts` items, and `ret` is what `ibv_post_send` returns. -/
def tx_burst (cfg : Config) (tx_burst_arr : List tx_burst_item_t) (ret : Int)
    (s : RawTransport) : Except Abort RawTransport :=
  let num_pkts := tx_burst_arr.length
  match tx_burst_loop cfg 0 tx_burst_arr s with
  | .error e => .error e
  | .ok s =>
    -- `num_pkts - 1` is a `size_t`: it wraps for an empty batch
    let last := (num_pkts + 2 ^ 64 - 1) % 2 ^ 64
    if ¬ last < cfg.kPostlist + 1 then .error ⟨ErrKind.out_of_bounds, s.hw_log⟩
    else
      -- Breaker of chains
      let s := { s with send_wr := set_at s.send_wr last { s.send_wr last with next := none } }
      -- `ibv_post_send(send_qp, &send_wr[0], &bad_wr)`
      let s := { s with hw_log := s.hw_log ++ [HwCall.post_send 0 s.send_wr s.send_sgl] }
      if ret ≠ 0 then .error ⟨ErrKind.fatal_exit, s.hw_log⟩
      else
        -- Restore chain; safe
        .ok { s with
          send_wr := set_at s.send_wr last { s.send_wr last with next := some num_pkts } }

/-- `RawTransport::tx_flush()`. -/
def tx_flush (s : RawTransport) : RawTransport := s

/-! ## `rx_burst` and `post_recvs` -/

/-- `RawTransport::rx_burst()`: the returned count and the new state. The
polling slot index is an array position, so `cqe_idx + 1` is not reduced
modulo `2 ^ 64`. -/
def rx_burst (cfg : Config) (s : RawTransport) : Nat × RawTransport :=
  let cur_snapshot := snapshot_cqe (s.recv_cqe_arr s.cqe_idx)
  let delta := get_cqe_cycle_delta cfg s.prev_snapshot cur_snapshot
  if delta = 0 ∨ delta ≥ cfg.kNumRxRingEntries then (0, s)
  else
    (delta, { s with cqe_idx := (s.cqe_idx + 1) % cfg.kRecvCQDepth,
                     prev_snapshot := cur_snapshot })

/-- `RawTransport::post_recvs(num_recvs)`; `ret` is what `recv_burst`
returns. The owed counter is a `size_t` to which a caller-supplied `size_t`
is added, so the sum is reduced modulo `2 ^ 64`; the pool cursor is an array
position, so `mp_sge_idx + 1` is not. -/
def post_recvs (cfg : Config) (num_recvs : Nat) (ret : Int) (s : RawTransport) :
    Except Abort RawTransport :=
  let s := { s with recvs_to_post := (s.recvs_to_post + num_recvs) % 2 ^ 64 }
  if s.recvs_to_post < cfg.kStridesPerWQE then .ok s
  else
    -- `wq_family->recv_burst(wq, &mp_recv_sge[mp_sge_idx], 1)`
    let s := { s with hw_log := s.hw_log ++ [HwCall.recv_burst s.mp_sge_idx 1] }
    if ret ≠ 0 then .error ⟨ErrKind.assert_failed, s.hw_log⟩
    else .ok { s with mp_sge_idx := (s.mp_sge_idx + 1) % cfg.kRQDepth }

/-! ## Closed forms used by the proofs -/

/-- What iteration `i` of the loop checks before and while it fills slot `i`:
the assertions of the source and the bounds of the ring. -/
def tx_asserts (cfg : Config) (i : Nat) (item : tx_burst_item_t) (s : RawTransport) : Prop :=
  item.msg_buffer.is_valid = true ∧
  item.data_bytes ≤ cfg.kMaxDataPerPkt ∧
  (item.offset + item.data_bytes) % 2 ^ 64 ≤ item.msg_buffer.data_size ∧
  i < cfg.kPostlist ∧
  (s.send_wr i).next = some (i + 1) ∧
  (s.send_wr i).opcode = IBV_WR_SEND ∧
  (s.send_wr i).sg_list = i ∧
  (s.send_sgl i 0).lkey = 0 ∧
  (item.offset ≠ 0 → (s.send_sgl i 1).lkey = 0)

/-- The work request that the loop body leaves in a slot, given the count of
descriptors posted before it. -/
def filled_wr (cfg : Config) (nb_tx : Nat) (item : tx_burst_item_t) (wr : ibv_send_wr) :
    ibv_send_wr :=
  let flag := if cfg.signal_policy nb_tx then IBV_SEND_SIGNALED else 0
  if item.offset = 0 then
    { wr with
      send_flags := flag |||
        (if (cfg.sizeof_pkthdr + item.data_bytes) % 2 ^ 32 ≤ cfg.kMaxInline
          then IBV_SEND_INLINE else 0),
      num_sge := 1 }
  else
    { wr with send_flags := flag, num_sge := 2 }

/-- The fragment list that the loop body leaves in a slot. -/
def filled_sgl (cfg : Config) (item : tx_burst_item_t) (sgl : Nat → ibv_sge) : Nat → ibv_sge :=
  if item.offset = 0 then
    set_at sgl 0
      { sgl 0 with addr := item.msg_buffer.get_pkthdr_0,
                   length := (cfg.sizeof_pkthdr + item.data_bytes) % 2 ^ 32 }
  else
    set_at
      (set_at sgl 0
        { sgl 0 with addr := item.msg_buffer.get_pkthdr_n (item.offset / cfg.kMaxDataPerPkt),
                     length := cfg.sizeof_pkthdr % 2 ^ 32 })
      1 { sgl 1 with addr := (item.msg_buffer.buf + item.offset) % 2 ^ 64,
                     length := item.data_bytes % 2 ^ 32 }

/-- The packet header that the loop body selects for an item. -/
def item_pkthdr (cfg : Config) (item : tx_burst_item_t) : Nat :=
  if item.offset = 0 then item.msg_buffer.get_pkthdr_0
  else item.msg_buffer.get_pkthdr_n (item.offset / cfg.kMaxDataPerPkt)

/-- The header memory after the three generators ran for an item. -/
def filled_hdr (cfg : Config) (item : tx_burst_item_t) (s : RawTransport) : Nat → frame_hdr :=
  gen_udp_header
    (gen_ipv4_header
      (gen_eth_header s.hdr_mem (headroom (item_pkthdr cfg item)) s.resolve.mac_addr
        item.routing_info.mac)
      (headroom (item_pkthdr cfg item) + cfg.sizeof_eth_hdr) s.resolve.ipv4_addr
      item.routing_info.ipv4_addr (cfg.kERpcHdrBytes + item.data_bytes))
    (headroom (item_pkthdr cfg item) + cfg.sizeof_eth_hdr + cfg.sizeof_ipv4_hdr)
    (cfg.kBaseRawUDPPort + s.rpc_id) item.routing_info.udp_port
    (cfg.kERpcHdrBytes + item.data_bytes)

/-- The state after one successful iteration of the loop. -/
def tx_fill (cfg : Config) (i : Nat) (item : tx_burst_item_t) (s : RawTransport) :
    RawTransport :=
  { s with
    send_wr := set_at s.send_wr i (filled_wr cfg s.nb_tx item (s.send_wr i)),
    send_sgl := set_at s.send_sgl i (filled_sgl cfg item (s.send_sgl i)),
    nb_tx := s.nb_tx + 1,
    hdr_mem := filled_hdr cfg item s }

/-- The state after the whole loop ran from index `i` over `items`. -/
def tx_fill_all (cfg : Config) : Nat → List tx_burst_item_t → RawTransport → RawTransport
  | _, [], s => s
  | i, item :: rest, s => tx_fill_all cfg (i + 1) rest (tx_fill cfg i item s)

/-- A batch that `tx_burst` processes without stopping: it is not empty, its
length is a `size_t`, and item `k` passes the checks of iteration `k`. -/
def tx_pre (cfg : Config) (items : List tx_burst_item_t) (s : RawTransport) : Prop :=
  items ≠ [] ∧ items.length < 2 ^ 64 ∧
  ∀ k item, items[k]? = some item → tx_asserts cfg k item s

/-- The descriptor memory at the moment of the doorbell: the filled ring with
the link of the last used slot cut. -/
def cut_wr (cfg : Config) (items : List tx_burst_item_t) (s : RawTransport) :
    Nat → ibv_send_wr :=
  set_at (tx_fill_all cfg 0 items s).send_wr (items.length - 1)
    { (tx_fill_all cfg 0 items s).send_wr (items.length - 1) with next := none }

/-- The chain of work requests the device walks from `head`: the slots it
visits until a null link, at most `fuel` of them. -/
def wr_chain (send_wr : Nat → ibv_send_wr) : Nat → Option Nat → List Nat
  | 0, _ => []
  | _ + 1, none => []
  | fuel + 1, some j => j :: wr_chain send_wr fuel (send_wr j).next

/-- Whether a work request is marked inline. -/
def is_inline (wr : ibv_send_wr) : Prop := wr.send_flags &&& IBV_SEND_INLINE ≠ 0

instance (wr : ibv_send_wr) : Decidable (is_inline wr) := by
  unfold is_inline; infer_instance

/-- The state in which a successful `tx_burst` returns. -/
def tx_done (cfg : Config) (items : List tx_burst_item_t) (s : RawTransport) : RawTransport :=
  { tx_fill_all cfg 0 items s with
    hw_log := s.hw_log ++
      [HwCall.post_send 0 (cut_wr cfg items s) (tx_fill_all cfg 0 items s).send_sgl] }

instance (cfg : Config) (i : Nat) (item : tx_burst_item_t) (s : RawTransport) :
    Decidable (tx_asserts cfg i item s) := by
  unfold tx_asserts; infer_instance

/-- Executable form of the checks of a batch, from index `i` on. -/
def tx_pre_from (cfg : Config) (s : RawTransport) : Nat → List tx_burst_item_t → Bool
  | _, [] => true
  | i, item :: rest => decide (tx_asserts cfg i item s) && tx_pre_from cfg s (i + 1) rest

/-- The NIC calls a run has issued, whether it returned or stopped. -/
def run_log : Except Abort RawTransport → List HwCall
  | .ok s => s.hw_log
  | .error e => e.hw_log

/-- The packets of one message in order: packet `i` starts at byte
`i * kMaxDataPerPkt` and carries what is left, at most `kMaxDataPerPkt`
bytes. There are `ceil(data_size / kMaxDataPerPkt)` of them. -/
def canonical_items (cfg : Config) (m : MsgBuffer) (r : raw_routing_info_t) :
    List tx_burst_item_t :=
  (List.range ((m.data_size + cfg.kMaxDataPerPkt - 1) / cfg.kMaxDataPerPkt)).map fun i =>
    { routing_info := r, msg_buffer := m, offset := i * cfg.kMaxDataPerPkt,
      data_bytes := min cfg.kMaxDataPerPkt (m.data_size - i * cfg.kMaxDataPerPkt) }

/-- The payload byte range a descriptor refers to, as address and length: with
one fragment the payload follows the packet header inside the fragment, with
two it is the second fragment. -/
def payload_range (cfg : Config) (wr : ibv_send_wr) (sgl : Nat → ibv_sge) : Nat × Nat :=
  if wr.num_sge = 1 then ((sgl 0).addr + cfg.sizeof_pkthdr, (sgl 0).length - cfg.sizeof_pkthdr)
  else ((sgl 1).addr, (sgl 1).length)

/-- The addresses of a byte range, in order. -/
def range_addrs (r : Nat × Nat) : List Nat := (List.range r.2).map fun j => r.1 + j

/-! ## Sequences of calls and header writes -/

/-- The constant fields of the first `n` slots are as `tx_burst` asserts
them: slot `i` links to slot `i + 1`, its opcode is a send, its fragment
pointer is row `i`, and both fragment keys are zero. -/
def ring_ready (cfg : Config) (s : RawTransport) (n : Nat) : Prop :=
  n ≤ cfg.kPostlist ∧
  ∀ i, i < n →
    (s.send_wr i).next = some (i + 1) ∧ (s.send_wr i).opcode = IBV_WR_SEND ∧
    (s.send_wr i).sg_list = i ∧ (s.send_sgl i 0).lkey = 0 ∧ (s.send_sgl i 1).lkey = 0

/-- Whether a NIC call is a receive post. -/
def is_recv_post : HwCall → Bool
  | .recv_burst _ _ => true
  | .post_send _ _ _ => false

/-- The number of receive posts in a log of NIC calls. -/
def recv_posts (log : List HwCall) : Nat := (log.filter is_recv_post).length

/-- A sequence of `post_recvs` calls, one per element of the list, every
receive post being accepted by the device. -/
def post_recvs_seq (cfg : Config) : List Nat → RawTransport → Except Abort RawTransport
  | [], s => .ok s
  | n :: ns, s =>
    match post_recvs cfg n 0 s with
    | .ok s1 => post_recvs_seq cfg ns s1
    | .error e => .error e

/-- The three header writes of one item, in program order: address and
content. -/
def item_hdr_writes (cfg : Config) (res : resolve_t) (rpc_id : Nat) (item : tx_burst_item_t) :
    List (Nat × frame_hdr) :=
  [ (headroom (item_pkthdr cfg item), frame_hdr.eth res.mac_addr item.routing_info.mac),
    (headroom (item_pkthdr cfg item) + cfg.sizeof_eth_hdr,
      frame_hdr.ipv4 res.ipv4_addr item.routing_info.ipv4_addr
        (cfg.kERpcHdrBytes + item.data_bytes)),
    (headroom (item_pkthdr cfg item) + cfg.sizeof_eth_hdr + cfg.sizeof_ipv4_hdr,
      frame_hdr.udp (cfg.kBaseRawUDPPort + rpc_id) item.routing_info.udp_port
        (cfg.kERpcHdrBytes + item.data_bytes)) ]

/-- A sequence of writes applied to the header memory, first to last. -/
def apply_writes (mem : Nat → frame_hdr) : List (Nat × frame_hdr) → Nat → frame_hdr
  | [] => mem
  | w :: ws => apply_writes (set_at mem w.1 w.2) ws

/-! ## Concrete configuration and states used to exercise the theorems -/

/-- A configuration with a 1024-byte payload limit. -/
def cfg_w : Config :=
  { kMaxDataPerPkt := 1024, kMaxInline := 60, sizeof_pkthdr := 58, kPostlist := 16,
    kNumRxRingEntries := 2048, kRecvCQDepth := 8, kStridesPerWQE := 512, kRQDepth := 4,
    kERpcHdrBytes := 16, kBaseRawUDPPort := 31850, sizeof_eth_hdr := 14, sizeof_ipv4_hdr := 20,
    kCQESnapshotCycle := 33554432, signal_policy := fun nb => nb % 64 == 0 }

/-- A transport whose ring is linked and whose slots still hold the flags,
fragment count and fragments of an earlier two-fragment inline-flagged use. -/
def st_w : RawTransport :=
  { send_wr := fun i =>
      { next := some (i + 1), sg_list := i, num_sge := 2, opcode := IBV_WR_SEND,
        send_flags := 10 },
    send_sgl := fun _ _ => { addr := 57005, length := 77, lkey := 0 },
    nb_tx := 5, resolve := { mac_addr := 1, ipv4_addr := 2 }, rpc_id := 3,
    hdr_mem := fun _ => frame_hdr.unwritten,
    recv_cqe_arr := fun _ => 0, cqe_idx := 0, prev_snapshot := 0,
    recvs_to_post := 0, mp_sge_idx := 0, hw_log := [] }

/-- A 3000-byte message whose header 0 directly precedes its payload. -/
def msg_w : MsgBuffer :=
  { buf := 4096, data_size := 3000, is_valid := true, get_pkthdr_0 := 4038,
    get_pkthdr_n := fun n => if n = 0 then 4038 else 7096 + (n - 1) * 58 }

/-- A peer. -/
def rinfo_w : raw_routing_info_t := { mac := 11, ipv4_addr := 12, udp_port := 13 }

/-- The three packets of the 3000-byte message. -/
def items_w : List tx_burst_item_t := canonical_items cfg_w msg_w rinfo_w

/-- A control packet, a full first packet and a continuation packet. -/
def items_mix : List tx_burst_item_t :=
  [ { routing_info := rinfo_w, msg_buffer := msg_w, offset := 0, data_bytes := 0 },
    { routing_info := rinfo_w, msg_buffer := msg_w, offset := 0, data_bytes := 1024 },
    { routing_info := rinfo_w, msg_buffer := msg_w, offset := 2048, data_bytes := 2 } ]

/-- A transport that recorded cursor 100 and now reads cursor 105 in every
completion queue entry. -/
def st_rx : RawTransport := { st_w with prev_snapshot := 100, recv_cqe_arr := fun _ => 105 }

/-- A transport that recorded cursor 100 and reads a cursor 3000 ahead, which
is beyond the ring depth of `cfg_w`. -/
def st_rx_far : RawTransport := { st_w with prev_snapshot := 100, recv_cqe_arr := fun _ => 3100 }

/-- A transport that owes one receive buffer. -/
def st_owed : RawTransport := { st_w with recvs_to_post := 1 }

/-- A fake message buffer: valid, without data. -/
def msg_fake : MsgBuffer :=
  { buf := 9000, data_size := 0, is_valid := true, get_pkthdr_0 := 8942,
    get_pkthdr_n := fun _ => 8942 }

/-- A batch of one control packet on the fake buffer. -/
def items_ctrl : List tx_burst_item_t :=
  [ { routing_info := rinfo_w, msg_buffer := msg_fake, offset := 0, data_bytes := 0 } ]

/-- A zero-byte packet at the end of a message of exactly one full packet. -/
def item_end : tx_burst_item_t :=
  { routing_info := rinfo_w,
    msg_buffer := { buf := 4096, data_size := 1024, is_valid := true, get_pkthdr_0 := 4038,
                    get_pkthdr_n := fun n => if n = 0 then 4038 else 5120 + (n - 1) * 58 },
    offset := 1024, data_bytes := 0 }

/-- A one-byte packet whose offset is the largest `size_t`. -/
def item_wrap : tx_burst_item_t :=
  { routing_info := rinfo_w, msg_buffer := msg_w, offset := 18446744073709551615,
    data_bytes := 1 }

/-! ## The loop body -/

theorem set_at_same {α : Type} (f : Nat → α) (i : Nat) (v : α) : set_at f i v i = v := by
  simp [set_at]

theorem set_at_other {α : Type} (f : Nat → α) (i j : Nat) (v : α) (h : j ≠ i) :
    set_at f i v j = f j := by
  simp [set_at, h]

theorem set_at_set_at {α : Type} (f : Nat → α) (i : Nat) (v w : α) :
    set_at (set_at f i v) i w = set_at f i w := by
  funext j
  by_cases h : j = i <;> simp [set_at, h]

theorem tx_burst_iter_ok (cfg : Config) (i : Nat) (item : tx_burst_item_t) (s : RawTransport)
    (h : tx_asserts cfg i item s) :
    tx_burst_iter cfg i item s = .ok (tx_fill cfg i item s) := by
  obtain ⟨h1, h2, h3, h4, h5, h6, h7, h8, h9⟩ := h
  simp only [Nat.reducePow] at h3
  by_cases h0 : item.offset = 0
  · simp only [h0, Nat.zero_add] at h3
    simp [tx_burst_iter, c_assert, c_index, get_signaled_flag, tx_fill, filled_wr, filled_sgl,
      filled_hdr, item_pkthdr, h0, h1, h2, h3, h4, h5, h6, h7, h8, set_at_same, set_at_set_at,
      set_at_other, bind, Except.bind, pure, Except.pure]
  · have h9' := h9 h0
    simp [tx_burst_iter, c_assert, c_index, get_signaled_flag, tx_fill, filled_wr, filled_sgl,
      filled_hdr, item_pkthdr, h0, h1, h2, h3, h4, h5, h6, h7, h8, h9', set_at_same,
      set_at_set_at, set_at_other, bind, Except.bind, pure, Except.pure]

/-- The loop body changes no field that the assertions read. -/
theorem tx_asserts_tx_fill (cfg : Config) (i j : Nat) (item item' : tx_burst_item_t)
    (s : RawTransport) :
    tx_asserts cfg j item' (tx_fill cfg i item s) ↔ tx_asserts cfg j item' s := by
  have hwr : ((tx_fill cfg i item s).send_wr j).next = (s.send_wr j).next ∧
      ((tx_fill cfg i item s).send_wr j).opcode = (s.send_wr j).opcode ∧
      ((tx_fill cfg i item s).send_wr j).sg_list = (s.send_wr j).sg_list := by
    by_cases hj : j = i
    · subst hj
      by_cases h0 : item.offset = 0 <;> simp [tx_fill, filled_wr, set_at, h0]
    · simp [tx_fill, set_at, hj]
  have hsg : ∀ k, ((tx_fill cfg i item s).send_sgl j k).lkey = (s.send_sgl j k).lkey := by
    intro k
    by_cases hj : j = i
    · subst hj
      by_cases h0 : item.offset = 0
      · by_cases hk : k = 0 <;> simp [tx_fill, filled_sgl, set_at, h0, hk]
      · by_cases hk : k = 0
        · simp [tx_fill, filled_sgl, set_at, h0, hk]
        · by_cases hk1 : k = 1 <;> simp [tx_fill, filled_sgl, set_at, h0, hk, hk1]
    · simp [tx_fill, set_at, hj]
  simp only [tx_asserts, hwr.1, hwr.2.1, hwr.2.2, hsg]

theorem tx_burst_loop_ok (cfg : Config) (items : List tx_burst_item_t) :
    ∀ (i : Nat) (s : RawTransport),
      (∀ k item, items[k]? = some item → tx_asserts cfg (i + k) item s) →
      tx_burst_loop cfg i items s = .ok (tx_fill_all cfg i items s) := by
  induction items with
  | nil => intro i s _; rfl
  | cons item rest ih =>
    intro i s h
    have h0 : tx_asserts cfg i item s := by simpa using h 0 item (by simp)
    have hrest : ∀ k item', rest[k]? = some item' →
        tx_asserts cfg (i + 1 + k) item' (tx_fill cfg i item s) := by
      intro k item' hk
      rw [tx_asserts_tx_fill]
      have := h (k + 1) item' (by simpa using hk)
      rwa [show i + 1 + k = i + (k + 1) by omega]
    simp only [tx_burst_loop, tx_burst_iter_ok cfg i item s h0, tx_fill_all]
    exact ih (i + 1) (tx_fill cfg i item s) hrest

theorem tx_fill_all_log (cfg : Config) (items : List tx_burst_item_t) :
    ∀ (i : Nat) (s : RawTransport),
      (tx_fill_all cfg i items s).hw_log = s.hw_log ∧
      (tx_fill_all cfg i items s).nb_tx = s.nb_tx + items.length := by
  induction items with
  | nil => intro i s; simp [tx_fill_all]
  | cons item rest ih =>
    intro i s
    obtain ⟨h1, h2⟩ := ih (i + 1) (tx_fill cfg i item s)
    simp only [tx_fill_all, h1, h2, List.length_cons]
    simp only [tx_fill]
    exact ⟨trivial, by omega⟩

/-- Slots outside the batch keep their work request and fragment list. -/
theorem tx_fill_all_outside (cfg : Config) (items : List tx_burst_item_t) :
    ∀ (i : Nat) (s : RawTransport) (j : Nat), (j < i ∨ i + items.length ≤ j) →
      (tx_fill_all cfg i items s).send_wr j = s.send_wr j ∧
      (tx_fill_all cfg i items s).send_sgl j = s.send_sgl j := by
  induction items with
  | nil => intro i s j _; simp [tx_fill_all]
  | cons item rest ih =>
    intro i s j hj
    have hne : j ≠ i := by
      rcases hj with hj | hj
      · omega
      · simp only [List.length_cons] at hj; omega
    have hj' : j < i + 1 ∨ i + 1 + rest.length ≤ j := by
      rcases hj with hj | hj
      · left; omega
      · right; simp only [List.length_cons] at hj; omega
    obtain ⟨h1, h2⟩ := ih (i + 1) (tx_fill cfg i item s) j hj'
    simp only [tx_fill_all, h1, h2]
    simp [tx_fill, set_at, hne]

/-- Slot `i + k` holds the descriptor built for item `k`. -/
theorem tx_fill_all_inside (cfg : Config) (items : List tx_burst_item_t) :
    ∀ (i : Nat) (s : RawTransport) (k : Nat) (item : tx_burst_item_t),
      items[k]? = some item →
      (tx_fill_all cfg i items s).send_wr (i + k)
        = filled_wr cfg (s.nb_tx + k) item (s.send_wr (i + k)) ∧
      (tx_fill_all cfg i items s).send_sgl (i + k)
        = filled_sgl cfg item (s.send_sgl (i + k)) := by
  induction items with
  | nil => intro i s k item h; simp at h
  | cons item0 rest ih =>
    intro i s k item h
    cases k with
    | zero =>
      have hi : item0 = item := by simpa using h
      subst hi
      obtain ⟨h1, h2⟩ := tx_fill_all_outside cfg rest (i + 1) (tx_fill cfg i item0 s) i
        (Or.inl (Nat.lt_succ_self i))
      simp only [tx_fill_all, Nat.add_zero, h1, h2]
      simp [tx_fill, set_at]
    | succ k =>
      have hk : rest[k]? = some item := by simpa using h
      obtain ⟨h1, h2⟩ := ih (i + 1) (tx_fill cfg i item0 s) k item hk
      have e : i + (k + 1) = i + 1 + k := by omega
      have hne : i + 1 + k ≠ i := by omega
      simp only [tx_fill_all, e, h1, h2]
      simp only [tx_fill, set_at, hne, if_false]
      exact ⟨by rw [show s.nb_tx + 1 + k = s.nb_tx + (k + 1) by omega], trivial⟩

theorem filled_wr_next (cfg : Config) (nb : Nat) (item : tx_burst_item_t) (wr : ibv_send_wr) :
    (filled_wr cfg nb item wr).next = wr.next ∧
    (filled_wr cfg nb item wr).opcode = wr.opcode ∧
    (filled_wr cfg nb item wr).sg_list = wr.sg_list := by
  by_cases h0 : item.offset = 0 <;> simp [filled_wr, h0]

/-- The batch fits the ring, and its last index is the wrapped `num_pkts - 1`. -/
theorem tx_pre_last (cfg : Config) (items : List tx_burst_item_t) (s : RawTransport)
    (h : tx_pre cfg items s) :
    0 < items.length ∧ items.length ≤ cfg.kPostlist ∧
    (items.length + 2 ^ 64 - 1) % 2 ^ 64 = items.length - 1 := by
  obtain ⟨hne, hlt, hall⟩ := h
  have hpos : 0 < items.length := List.length_pos.mpr hne
  have hlast : items.length - 1 < items.length := by omega
  have hget : items[items.length - 1]? = some (items[items.length - 1]) :=
    List.getElem?_eq_getElem hlast
  have hk := (hall _ _ hget).2.2.2.1
  refine ⟨hpos, by omega, ?_⟩
  have e : items.length + 2 ^ 64 - 1 = (items.length - 1) + 2 ^ 64 := by omega
  rw [e, Nat.add_mod_right, Nat.mod_eq_of_lt (by omega)]

/-- Every link of the ring after the loop is the one it had on entry. -/
theorem tx_fill_all_next (cfg : Config) (items : List tx_burst_item_t) (s : RawTransport)
    (j : Nat) : ((tx_fill_all cfg 0 items s).send_wr j).next = (s.send_wr j).next := by
  by_cases hj : j < items.length
  · have hget : items[j]? = some (items[j]) := List.getElem?_eq_getElem hj
    have h := (tx_fill_all_inside cfg items 0 s j _ hget).1
    simp only [Nat.zero_add] at h
    rw [h, (filled_wr_next cfg _ _ _).1]
  · rw [(tx_fill_all_outside cfg items 0 s j (Or.inr (by omega))).1]

theorem exists_item (items : List tx_burst_item_t) (k : Nat) (h : k < items.length) :
    ∃ item, items[k]? = some item :=
  ⟨_, List.getElem?_eq_getElem h⟩

theorem tx_burst_run (cfg : Config) (items : List tx_burst_item_t) (ret : Int)
    (s : RawTransport) (h : tx_pre cfg items s) :
    tx_burst cfg items ret s =
      if ret ≠ 0 then .error ⟨ErrKind.fatal_exit, (tx_done cfg items s).hw_log⟩
      else .ok (tx_done cfg items s) := by
  obtain ⟨hpos, hle, hlast⟩ := tx_pre_last cfg items s h
  have hloop := tx_burst_loop_ok cfg items 0 s (by
    intro k item hk
    simpa using h.2.2 k item hk)
  have hidx : items.length - 1 < cfg.kPostlist + 1 := by omega
  obtain ⟨it, hget⟩ := exists_item items (items.length - 1) (by omega)
  have hnext : ((tx_fill_all cfg 0 items s).send_wr (items.length - 1)).next
      = some items.length := by
    have hh := (h.2.2 _ _ hget).2.2.2.2.1
    rw [tx_fill_all_next]
    rw [hh]
    have e : items.length - 1 + 1 = items.length := by omega
    rw [e]
  have hrestore : set_at (cut_wr cfg items s) (items.length - 1)
      { cut_wr cfg items s (items.length - 1) with next := some items.length }
      = (tx_fill_all cfg 0 items s).send_wr := by
    funext j
    by_cases hj : j = items.length - 1
    · subst hj
      simp only [set_at, cut_wr, if_true]
      rw [← hnext]
    · simp [set_at, cut_wr, hj]
  have hlog := (tx_fill_all_log cfg items 0 s).1
  unfold tx_burst
  simp only [hloop, hlast, hidx, not_true_eq_false, if_false]
  by_cases hr : ret = 0
  · simp only [hr, ne_eq, not_true_eq_false, if_false, tx_done]
    have := hrestore
    simp only [cut_wr] at this
    simp only [hlog, cut_wr, this]
  · simp only [ne_eq, hr, not_false_eq_true, if_true, tx_done, hlog, cut_wr]

theorem tx_pre_from_sound (cfg : Config) (s : RawTransport) (items : List tx_burst_item_t) :
    ∀ (i : Nat), tx_pre_from cfg s i items = true →
      ∀ k item, items[k]? = some item → tx_asserts cfg (i + k) item s := by
  induction items with
  | nil => intro i _ k item h; simp at h
  | cons item0 rest ih =>
    intro i hc k item h
    simp only [tx_pre_from, Bool.and_eq_true, decide_eq_true_eq] at hc
    cases k with
    | zero =>
      have hi : item0 = item := by simpa using h
      subst hi
      exact hc.1
    | succ k =>
      have hk : rest[k]? = some item := by simpa using h
      have := ih (i + 1) hc.2 k item hk
      rwa [show i + 1 + k = i + (k + 1) by omega] at this

/-- A batch that passes the executable checks satisfies `tx_pre`. -/
theorem tx_pre_of_check (cfg : Config) (s : RawTransport) (items : List tx_burst_item_t)
    (hne : items ≠ []) (hlen : items.length < 2 ^ 64)
    (hc : tx_pre_from cfg s 0 items = true) : tx_pre cfg items s := by
  refine ⟨hne, hlen, ?_⟩
  intro k item h
  simpa using tx_pre_from_sound cfg s items 0 hc k item h

theorem tx_pre_w : tx_pre cfg_w items_w st_w :=
  tx_pre_of_check cfg_w st_w items_w (List.ne_nil_of_length_pos (by decide)) (by decide)
    (by decide)

/-- After a run that returns, slot `k` holds the descriptor built for item `k`. -/
theorem tx_done_slot (cfg : Config) (items : List tx_burst_item_t) (s : RawTransport)
    (k : Nat) (item : tx_burst_item_t) (hk : items[k]? = some item) :
    (tx_done cfg items s).send_wr k = filled_wr cfg (s.nb_tx + k) item (s.send_wr k) ∧
    (tx_done cfg items s).send_sgl k = filled_sgl cfg item (s.send_sgl k) := by
  have h := tx_fill_all_inside cfg items 0 s k item hk
  simp only [Nat.zero_add] at h
  exact h

theorem flag_inline (b c : Bool) :
    ((if b then IBV_SEND_SIGNALED else 0) ||| (if c then IBV_SEND_INLINE else 0))
      &&& IBV_SEND_INLINE ≠ 0 ↔ c = true := by
  cases b <;> cases c <;> decide

theorem flag_not_inline (b : Bool) :
    ¬ ((if b then IBV_SEND_SIGNALED else 0) &&& IBV_SEND_INLINE ≠ 0) := by
  cases b <;> decide

/-- The inline mark of a filled work request. -/
theorem filled_wr_inline (cfg : Config) (nb : Nat) (item : tx_burst_item_t) (wr : ibv_send_wr) :
    is_inline (filled_wr cfg nb item wr) ↔
      (item.offset = 0 ∧ (cfg.sizeof_pkthdr + item.data_bytes) % 2 ^ 32 ≤ cfg.kMaxInline) := by
  by_cases h0 : item.offset = 0
  · have := flag_inline (cfg.signal_policy nb)
      (decide ((cfg.sizeof_pkthdr + item.data_bytes) % 2 ^ 32 ≤ cfg.kMaxInline))
    simp only [decide_eq_true_eq] at this
    simp only [is_inline, filled_wr, h0, if_true, true_and]
    exact this
  · have := flag_not_inline (cfg.signal_policy nb)
    simp only [is_inline, filled_wr, h0, if_false, false_and, iff_false]
    exact this

/-- **C1.** For every batch that `tx_burst` accepts, whatever its descriptor
slots held before (flags, fragment count and fragments of an earlier batch
included), after `tx_burst` the slot of an item is marked inline if and only
if the item has offset 0, that is the slot has exactly one fragment, and
header size plus `data_bytes` is at most `kMaxInline`; the slot of an item
with offset above 0 has two fragments and is not marked inline. The header
plus a maximum payload is assumed to fit the 32-bit length of a fragment. -/
theorem tx_burst_inline_iff (cfg : Config) (items : List tx_burst_item_t) (s : RawTransport)
    (hfit : cfg.sizeof_pkthdr + cfg.kMaxDataPerPkt < 2 ^ 32)
    (h : tx_pre cfg items s) :
    ∃ s', tx_burst cfg items 0 s = .ok s' ∧
      ∀ k item, items[k]? = some item →
        (is_inline (s'.send_wr k) ↔
          (item.offset = 0 ∧ cfg.sizeof_pkthdr + item.data_bytes ≤ cfg.kMaxInline)) ∧
        ((s'.send_wr k).num_sge = 1 ↔ item.offset = 0) ∧
        (0 < item.offset → (s'.send_wr k).num_sge = 2 ∧ ¬ is_inline (s'.send_wr k)) := by
  refine ⟨tx_done cfg items s, by simp [tx_burst_run cfg items 0 s h], ?_⟩
  intro k item hk
  have hdata : item.data_bytes ≤ cfg.kMaxDataPerPkt := (h.2.2 k item hk).2.1
  have hmod : (cfg.sizeof_pkthdr + item.data_bytes) % 2 ^ 32
      = cfg.sizeof_pkthdr + item.data_bytes := Nat.mod_eq_of_lt (by omega)
  have hin := filled_wr_inline cfg (s.nb_tx + k) item (s.send_wr k)
  rw [hmod] at hin
  rw [(tx_done_slot cfg items s k item hk).1]
  refine ⟨hin, ?_, ?_⟩
  · by_cases h0 : item.offset = 0 <;> simp [filled_wr, h0]
  · intro hpos
    have h0 : item.offset ≠ 0 := by omega
    refine ⟨by simp [filled_wr, h0], ?_⟩
    intro hi
    exact h0 (hin.mp hi).1

theorem tx_pre_mix : tx_pre cfg_w items_mix st_w :=
  tx_pre_of_check cfg_w st_w items_mix (List.ne_nil_of_length_pos (by decide)) (by decide)
    (by decide)

/-- Witness of C1: a control packet, a full first packet and a continuation
packet are posted into slots that still carry an inline flag and a fragment
count of 2 from an earlier use. Only the control packet ends marked inline;
the first two slots end with one fragment and the third with two. -/
theorem tx_burst_inline_iff_witness :
    ∃ s', tx_burst cfg_w items_mix 0 st_w = .ok s' ∧
      is_inline (s'.send_wr 0) ∧ ¬ is_inline (s'.send_wr 1) ∧ ¬ is_inline (s'.send_wr 2) ∧
      (s'.send_wr 0).num_sge = 1 ∧ (s'.send_wr 1).num_sge = 1 ∧ (s'.send_wr 2).num_sge = 2 := by
  obtain ⟨s', hrun, hall⟩ := tx_burst_inline_iff cfg_w items_mix st_w (by decide) tx_pre_mix
  have h0 := hall 0 _ rfl
  have h1 := hall 1 _ rfl
  have h2 := hall 2 _ rfl
  exact ⟨s', hrun, h0.1.mpr (by decide), fun h => absurd (h1.1.mp h).2 (by decide),
    (h2.2.2 (by decide)).2, h0.2.1.mpr rfl, h1.2.1.mpr rfl, (h2.2.2 (by decide)).1⟩

/-- **C2.** For every item `k` of an accepted batch with offset 0 (its
`data_bytes` is at most `kMaxDataPerPkt`), slot `k` ends with exactly one
fragment, whose address is packet header 0 of the message and whose length
is `sizeof(pkthdr_t) + data_bytes`. -/
theorem tx_burst_first_pkt (cfg : Config) (items : List tx_burst_item_t) (s : RawTransport)
    (hfit : cfg.sizeof_pkthdr + cfg.kMaxDataPerPkt < 2 ^ 32)
    (h : tx_pre cfg items s) :
    ∃ s', tx_burst cfg items 0 s = .ok s' ∧
      ∀ k item, items[k]? = some item → item.offset = 0 →
        item.data_bytes ≤ cfg.kMaxDataPerPkt ∧
        (s'.send_wr k).num_sge = 1 ∧
        (s'.send_sgl k 0).addr = item.msg_buffer.get_pkthdr_0 ∧
        (s'.send_sgl k 0).length = cfg.sizeof_pkthdr + item.data_bytes := by
  refine ⟨tx_done cfg items s, by simp [tx_burst_run cfg items 0 s h], ?_⟩
  intro k item hk h0
  have hdata : item.data_bytes ≤ cfg.kMaxDataPerPkt := (h.2.2 k item hk).2.1
  have hmod : (cfg.sizeof_pkthdr + item.data_bytes) % 2 ^ 32
      = cfg.sizeof_pkthdr + item.data_bytes := Nat.mod_eq_of_lt (by omega)
  obtain ⟨hwr, hsgl⟩ := tx_done_slot cfg items s k item hk
  rw [hwr, hsgl]
  refine ⟨hdata, by simp [filled_wr, h0], by simp [filled_sgl, h0, set_at], ?_⟩
  simp only [filled_sgl, h0, if_true, set_at]
  exact hmod

/-- Witness of C2: the first packet of the 3000-byte message. -/
theorem tx_burst_first_pkt_witness :
    ∃ s', tx_burst cfg_w items_w 0 st_w = .ok s' ∧
      ∀ k item, items_w[k]? = some item → item.offset = 0 →
        item.data_bytes ≤ cfg_w.kMaxDataPerPkt ∧
        (s'.send_wr k).num_sge = 1 ∧
        (s'.send_sgl k 0).addr = item.msg_buffer.get_pkthdr_0 ∧
        (s'.send_sgl k 0).length = cfg_w.sizeof_pkthdr + item.data_bytes :=
  tx_burst_first_pkt cfg_w items_w st_w (by decide) tx_pre_w

/-- **C3.** For every item `k` of an accepted batch with offset above 0,
slot `k` ends with exactly two fragments: fragment 0 is the packet header
with index `offset / kMaxDataPerPkt` and has length `sizeof(pkthdr_t)`;
fragment 1 starts at byte `offset` of the payload buffer, its address being
the `uint64_t` value of `&buf[offset]`, which is `buf + offset` whenever that
is a 64-bit address, and has length `data_bytes`. -/
theorem tx_burst_later_pkt (cfg : Config) (items : List tx_burst_item_t) (s : RawTransport)
    (hfit : cfg.sizeof_pkthdr + cfg.kMaxDataPerPkt < 2 ^ 32)
    (h : tx_pre cfg items s) :
    ∃ s', tx_burst cfg items 0 s = .ok s' ∧
      ∀ k item, items[k]? = some item → 0 < item.offset →
        (s'.send_wr k).num_sge = 2 ∧
        (s'.send_sgl k 0).addr
          = item.msg_buffer.get_pkthdr_n (item.offset / cfg.kMaxDataPerPkt) ∧
        (s'.send_sgl k 0).length = cfg.sizeof_pkthdr ∧
        (s'.send_sgl k 1).addr = (item.msg_buffer.buf + item.offset) % 2 ^ 64 ∧
        (item.msg_buffer.buf + item.offset < 2 ^ 64 →
          (s'.send_sgl k 1).addr = item.msg_buffer.buf + item.offset) ∧
        (s'.send_sgl k 1).length = item.data_bytes := by
  refine ⟨tx_done cfg items s, by simp [tx_burst_run cfg items 0 s h], ?_⟩
  intro k item hk hpos
  have h0 : item.offset ≠ 0 := by omega
  have hdata : item.data_bytes ≤ cfg.kMaxDataPerPkt := (h.2.2 k item hk).2.1
  have hm1 : cfg.sizeof_pkthdr % 2 ^ 32 = cfg.sizeof_pkthdr := Nat.mod_eq_of_lt (by omega)
  have hm2 : item.data_bytes % 2 ^ 32 = item.data_bytes := Nat.mod_eq_of_lt (by omega)
  obtain ⟨hwr, hsgl⟩ := tx_done_slot cfg items s k item hk
  have haddr : (filled_sgl cfg item (s.send_sgl k) 1).addr
      = (item.msg_buffer.buf + item.offset) % 2 ^ 64 := by
    simp only [filled_sgl, h0, if_false, set_at, if_true]
  rw [hwr, hsgl]
  refine ⟨by simp [filled_wr, h0], by simp [filled_sgl, h0, set_at], ?_, haddr, ?_, ?_⟩
  · simp only [filled_sgl, h0, if_false, set_at]
    simpa using hm1
  · intro hlt
    rw [haddr, Nat.mod_eq_of_lt hlt]
  · simp only [filled_sgl, h0, if_false, set_at]
    simpa using hm2

/-- Witness of C3: the second and third packet of the 3000-byte message
start at addresses 5120 and 6144 of the payload at 4096. -/
theorem tx_burst_later_pkt_witness :
    ∃ s', tx_burst cfg_w items_w 0 st_w = .ok s' ∧
      (s'.send_wr 1).num_sge = 2 ∧ (s'.send_sgl 1 0).length = 58 ∧
      (s'.send_sgl 1 1).addr = 4096 + 1024 ∧ (s'.send_sgl 1 1).length = 1024 ∧
      (s'.send_wr 2).num_sge = 2 ∧ (s'.send_sgl 2 0).length = 58 ∧
      (s'.send_sgl 2 1).addr = 4096 + 2048 ∧ (s'.send_sgl 2 1).length = 952 := by
  obtain ⟨s', hs', hall⟩ := tx_burst_later_pkt cfg_w items_w st_w (by decide) tx_pre_w
  obtain ⟨a1, _, c1, _, e1, f1⟩ := hall 1 _ rfl (by decide)
  obtain ⟨a2, _, c2, _, e2, f2⟩ := hall 2 _ rfl (by decide)
  exact ⟨s', hs', a1, c1, e1 (by decide), f1, a2, c2, e2 (by decide), f2⟩

/-! ## The doorbell chain -/

theorem wr_chain_none (send_wr : Nat → ibv_send_wr) (fuel : Nat) :
    wr_chain send_wr fuel none = [] := by
  cases fuel <;> rfl

/-- A ring linked slot to slot and cut at slot `n - 1` is walked as the
slots `i, i + 1, ..., n - 1`, with any fuel that covers them. -/
theorem wr_chain_linked (send_wr : Nat → ibv_send_wr) (n : Nat)
    (hlink : ∀ j, j + 1 < n → (send_wr j).next = some (j + 1))
    (hcut : (send_wr (n - 1)).next = none) :
    ∀ (fuel i : Nat), i < n → n - i ≤ fuel →
      wr_chain send_wr fuel (some i) = List.range' i (n - i) := by
  intro fuel
  induction fuel with
  | zero => intro i hi hf; omega
  | succ fuel ih =>
    intro i hi hf
    by_cases hlast : i + 1 < n
    · have e : n - i = (n - (i + 1)) + 1 := by omega
      rw [e, List.range'_succ]
      simp only [wr_chain, hlink i hlast]
      rw [ih (i + 1) hlast (by omega)]
    · have e : i = n - 1 := by omega
      have e1 : n - i = 1 := by omega
      rw [e1]
      simp only [wr_chain]
      rw [e, hcut, wr_chain_none]
      rfl

/-- At the doorbell the chain from slot 0 is exactly the slots of the batch. -/
theorem wr_chain_cut (cfg : Config) (items : List tx_burst_item_t) (s : RawTransport)
    (h : tx_pre cfg items s) (fuel : Nat) (hf : items.length ≤ fuel) :
    wr_chain (cut_wr cfg items s) fuel (some 0) = List.range items.length := by
  obtain ⟨hpos, _, _⟩ := tx_pre_last cfg items s h
  have hlink : ∀ j, j + 1 < items.length → (cut_wr cfg items s j).next = some (j + 1) := by
    intro j hj
    have hne : j ≠ items.length - 1 := by omega
    obtain ⟨it, hget⟩ := exists_item items j (by omega)
    have hh := (h.2.2 _ _ hget).2.2.2.2.1
    simp only [cut_wr, set_at, hne, if_false]
    rw [tx_fill_all_next]
    exact hh
  have hcut : (cut_wr cfg items s (items.length - 1)).next = none := by
    simp [cut_wr, set_at]
  have := wr_chain_linked (cut_wr cfg items s) items.length hlink hcut fuel 0 hpos (by omega)
  rw [this, List.range_eq_range']
  rfl

/-- The cut changes nothing but the link of the last used slot. -/
theorem cut_wr_fields (cfg : Config) (items : List tx_burst_item_t) (s : RawTransport)
    (k : Nat) (item : tx_burst_item_t) (hk : items[k]? = some item) :
    (cut_wr cfg items s k).send_flags
      = (filled_wr cfg (s.nb_tx + k) item (s.send_wr k)).send_flags ∧
    (cut_wr cfg items s k).num_sge
      = (filled_wr cfg (s.nb_tx + k) item (s.send_wr k)).num_sge ∧
    (cut_wr cfg items s k).opcode = (s.send_wr k).opcode ∧
    (cut_wr cfg items s k).sg_list = (s.send_wr k).sg_list := by
  have h := (tx_fill_all_inside cfg items 0 s k item hk).1
  simp only [Nat.zero_add] at h
  have hn := filled_wr_next cfg (s.nb_tx + k) item (s.send_wr k)
  by_cases hl : k = items.length - 1
  · subst hl
    simp only [cut_wr, set_at, if_true, h]
    exact ⟨trivial, trivial, hn.2.1, hn.2.2⟩
  · simp only [cut_wr, set_at, hl, if_false, h]
    exact ⟨trivial, trivial, hn.2.1, hn.2.2⟩

/-- **C5.** For every batch of `count` items that `tx_burst` accepts
(`1 ≤ count ≤ kPostlist`, every used slot linked to the next one on entry)
and every return code of the device: `tx_burst` issues exactly one NIC call,
a send submission with head slot 0; at that moment the chain from slot 0 is
the slots `0, ..., count - 1` in order and the link of slot `count - 1` is
null; slot `k` of the submitted memory carries the flags, fragment count and
fragments built for item `k`; and if the device accepts the submission,
`tx_burst` returns. -/
theorem tx_burst_one_submission (cfg : Config) (items : List tx_burst_item_t)
    (s : RawTransport) (ret : Int) (h : tx_pre cfg items s) :
    1 ≤ items.length ∧ items.length ≤ cfg.kPostlist ∧
    ∃ wr sgl,
      run_log (tx_burst cfg items ret s) = s.hw_log ++ [HwCall.post_send 0 wr sgl] ∧
      (∀ fuel, items.length ≤ fuel → wr_chain wr fuel (some 0) = List.range items.length) ∧
      (wr (items.length - 1)).next = none ∧
      (∀ k, k + 1 < items.length → (wr k).next = some (k + 1)) ∧
      (∀ k item, items[k]? = some item →
        (wr k).send_flags = (filled_wr cfg (s.nb_tx + k) item (s.send_wr k)).send_flags ∧
        (wr k).num_sge = (filled_wr cfg (s.nb_tx + k) item (s.send_wr k)).num_sge ∧
        sgl k = filled_sgl cfg item (s.send_sgl k)) ∧
      (ret = 0 → ∃ s', tx_burst cfg items ret s = .ok s' ∧
        s'.hw_log = s.hw_log ++ [HwCall.post_send 0 wr sgl]) := by
  obtain ⟨hpos, hle, _⟩ := tx_pre_last cfg items s h
  refine ⟨hpos, hle, cut_wr cfg items s, (tx_fill_all cfg 0 items s).send_sgl, ?_, ?_, ?_, ?_,
    ?_, ?_⟩
  · rw [tx_burst_run cfg items ret s h]
    by_cases hr : ret = 0 <;> simp [hr, run_log, tx_done]
  · intro fuel hf
    exact wr_chain_cut cfg items s h fuel hf
  · simp [cut_wr, set_at]
  · intro k hk
    have hne : k ≠ items.length - 1 := by omega
    obtain ⟨it, hget⟩ := exists_item items k (by omega)
    have hh := (h.2.2 _ _ hget).2.2.2.2.1
    simp only [cut_wr, set_at, hne, if_false]
    rw [tx_fill_all_next]
    exact hh
  · intro k item hk
    have hc := cut_wr_fields cfg items s k item hk
    have hs := (tx_fill_all_inside cfg items 0 s k item hk).2
    simp only [Nat.zero_add] at hs
    exact ⟨hc.1, hc.2.1, hs⟩
  · intro hr
    refine ⟨tx_done cfg items s, ?_, rfl⟩
    rw [tx_burst_run cfg items ret s h]
    simp [hr]

/-- Witness of C5: the three packets of the 3000-byte message, accepted by
the device. -/
theorem tx_burst_one_submission_witness :
    1 ≤ items_w.length ∧ items_w.length ≤ cfg_w.kPostlist ∧
    ∃ wr sgl,
      run_log (tx_burst cfg_w items_w 0 st_w) = st_w.hw_log ++ [HwCall.post_send 0 wr sgl] ∧
      (∀ fuel, items_w.length ≤ fuel →
        wr_chain wr fuel (some 0) = List.range items_w.length) ∧
      (wr (items_w.length - 1)).next = none ∧
      (∀ k, k + 1 < items_w.length → (wr k).next = some (k + 1)) ∧
      (∀ k item, items_w[k]? = some item →
        (wr k).send_flags
          = (filled_wr cfg_w (st_w.nb_tx + k) item (st_w.send_wr k)).send_flags ∧
        (wr k).num_sge = (filled_wr cfg_w (st_w.nb_tx + k) item (st_w.send_wr k)).num_sge ∧
        sgl k = filled_sgl cfg_w item (st_w.send_sgl k)) ∧
      ((0 : Int) = 0 → ∃ s', tx_burst cfg_w items_w 0 st_w = .ok s' ∧
        s'.hw_log = st_w.hw_log ++ [HwCall.post_send 0 wr sgl]) :=
  tx_burst_one_submission cfg_w items_w st_w 0 tx_pre_w

theorem tx_asserts_tx_fill_all (cfg : Config) (items : List tx_burst_item_t) :
    ∀ (i : Nat) (s : RawTransport) (j : Nat) (item' : tx_burst_item_t),
      tx_asserts cfg j item' (tx_fill_all cfg i items s) ↔ tx_asserts cfg j item' s := by
  induction items with
  | nil => intro i s j item'; rfl
  | cons item rest ih =>
    intro i s j item'
    simp only [tx_fill_all]
    rw [ih (i + 1) (tx_fill cfg i item s) j item', tx_asserts_tx_fill]

/-- A batch accepted before a `tx_burst` that returned is accepted after it. -/
theorem tx_pre_tx_done (cfg : Config) (items items2 : List tx_burst_item_t) (s : RawTransport)
    (h2 : tx_pre cfg items2 s) : tx_pre cfg items2 (tx_done cfg items s) := by
  refine ⟨h2.1, h2.2.1, ?_⟩
  intro k item hk
  have := (tx_asserts_tx_fill_all cfg items 0 s k item).mpr (h2.2.2 k item hk)
  exact this

/-- **C6.** If every slot `i` of the ring links to slot `i + 1` before
`tx_burst`, then for every accepted batch of `N ≥ 1` items whose submission
succeeds, `tx_burst` returns, slot `N - 1` again links to slot `N`, the link
of every slot equals its value before the call, every slot `i` again links
to slot `i + 1`, and every batch that was acceptable before the call is
acceptable after it. -/
theorem tx_burst_chain_restored (cfg : Config) (items : List tx_burst_item_t)
    (s : RawTransport)
    (hchain : ∀ i, i < cfg.kPostlist → (s.send_wr i).next = some (i + 1))
    (h : tx_pre cfg items s) :
    1 ≤ items.length ∧
    ∃ s', tx_burst cfg items 0 s = .ok s' ∧
      (s'.send_wr (items.length - 1)).next = some items.length ∧
      (∀ j, (s'.send_wr j).next = (s.send_wr j).next) ∧
      (∀ i, i < cfg.kPostlist → (s'.send_wr i).next = some (i + 1)) ∧
      (∀ items2, tx_pre cfg items2 s → tx_pre cfg items2 s') := by
  obtain ⟨hpos, hle, _⟩ := tx_pre_last cfg items s h
  have hnext : ∀ j, ((tx_done cfg items s).send_wr j).next = (s.send_wr j).next := by
    intro j
    exact tx_fill_all_next cfg items s j
  refine ⟨hpos, tx_done cfg items s, by simp [tx_burst_run cfg items 0 s h], ?_, hnext, ?_, ?_⟩
  · have e : items.length - 1 + 1 = items.length := by omega
    have hc := hchain (items.length - 1) (by omega)
    rw [e] at hc
    rw [hnext]
    exact hc
  · intro i hi
    rw [hnext, hchain i hi]
  · intro items2 h2
    exact tx_pre_tx_done cfg items items2 s h2

/-- Witness of C6 on the linked ring `st_w` and the three packets of the
3000-byte message. -/
theorem tx_burst_chain_restored_witness :
    1 ≤ items_w.length ∧
    ∃ s', tx_burst cfg_w items_w 0 st_w = .ok s' ∧
      (s'.send_wr (items_w.length - 1)).next = some items_w.length ∧
      (∀ j, (s'.send_wr j).next = (st_w.send_wr j).next) ∧
      (∀ i, i < cfg_w.kPostlist → (s'.send_wr i).next = some (i + 1)) ∧
      (∀ items2, tx_pre cfg_w items2 st_w → tx_pre cfg_w items2 s') :=
  tx_burst_chain_restored cfg_w items_w st_w (fun _ _ => rfl) tx_pre_w

/-! ## Segmentation of one message -/

theorem chunks_cover (C S buf : Nat) (n : Nat) :
    ((List.range n).map fun k =>
        (List.range (min C (S - k * C))).map fun j => buf + k * C + j).flatten
      = (List.range (min S (n * C))).map fun j => buf + j := by
  induction n with
  | zero => simp
  | succ n ih =>
    rw [List.range_succ, List.map_append, List.flatten_append, ih]
    simp only [List.map_cons, List.map_nil, List.flatten_cons, List.flatten_nil, List.append_nil]
    by_cases h : S ≤ n * C
    · have e1 : min S (n * C) = S := by omega
      have e2 : min C (S - n * C) = 0 := by omega
      have e3 : min S ((n + 1) * C) = S := by
        have : n * C ≤ (n + 1) * C := Nat.mul_le_mul_right _ (by omega)
        omega
      simp [e1, e2, e3]
    · have e1 : min S (n * C) = n * C := by omega
      have e3 : min S ((n + 1) * C) = n * C + min C (S - n * C) := by
        have : (n + 1) * C = n * C + C := by ring
        omega
      rw [e1, e3, List.range_add, List.map_append, List.map_map]
      congr 1
      apply List.map_congr_left
      intro j _
      simp [Nat.add_assoc]

theorem ceil_mul_ge (C S : Nat) (hC : 0 < C) : S ≤ (S + C - 1) / C * C := by
  have h1 := Nat.div_add_mod (S + C - 1) C
  have h2 := Nat.mod_lt (S + C - 1) hC
  have h3 : C * ((S + C - 1) / C) = (S + C - 1) / C * C := Nat.mul_comm _ _
  omega

theorem lt_ceil (C S k : Nat) (hC : 0 < C) (hk : k < (S + C - 1) / C) : k * C < S := by
  have h1 : (k + 1) ≤ (S + C - 1) / C := hk
  have h2 : (k + 1) * C ≤ S + C - 1 := (Nat.le_div_iff_mul_le hC).mp h1
  have : (k + 1) * C = k * C + C := by ring
  omega

theorem canonical_items_length (cfg : Config) (m : MsgBuffer) (r : raw_routing_info_t) :
    (canonical_items cfg m r).length
      = (m.data_size + cfg.kMaxDataPerPkt - 1) / cfg.kMaxDataPerPkt := by
  simp [canonical_items]

theorem canonical_items_get (cfg : Config) (m : MsgBuffer) (r : raw_routing_info_t)
    (k : Nat) (item : tx_burst_item_t) (h : (canonical_items cfg m r)[k]? = some item) :
    k < (m.data_size + cfg.kMaxDataPerPkt - 1) / cfg.kMaxDataPerPkt ∧
    item = { routing_info := r, msg_buffer := m, offset := k * cfg.kMaxDataPerPkt,
             data_bytes := min cfg.kMaxDataPerPkt (m.data_size - k * cfg.kMaxDataPerPkt) } := by
  unfold canonical_items at h
  rw [List.getElem?_map] at h
  by_cases hk : k < (m.data_size + cfg.kMaxDataPerPkt - 1) / cfg.kMaxDataPerPkt
  · rw [List.getElem?_range hk] at h
    simp only [Option.map_some', Option.some.injEq] at h
    exact ⟨hk, h.symm⟩
  · rw [List.getElem?_eq_none (by simpa using hk)] at h
    simp at h

theorem canonical_items_get_lt (cfg : Config) (m : MsgBuffer) (r : raw_routing_info_t)
    (k : Nat) (hk : k < (m.data_size + cfg.kMaxDataPerPkt - 1) / cfg.kMaxDataPerPkt) :
    (canonical_items cfg m r)[k]? =
      some { routing_info := r, msg_buffer := m, offset := k * cfg.kMaxDataPerPkt,
             data_bytes := min cfg.kMaxDataPerPkt (m.data_size - k * cfg.kMaxDataPerPkt) } := by
  unfold canonical_items
  rw [List.getElem?_map, List.getElem?_range hk]
  rfl

/-- The canonical packets of a valid, non-empty message are accepted by a
ready ring that has room for them. -/
theorem tx_pre_canonical (cfg : Config) (m : MsgBuffer) (r : raw_routing_info_t)
    (s : RawTransport) (hC : 0 < cfg.kMaxDataPerPkt) (hS : 1 ≤ m.data_size)
    (hvalid : m.is_valid = true)
    (hsz : (m.data_size + cfg.kMaxDataPerPkt - 1) / cfg.kMaxDataPerPkt < 2 ^ 64)
    (hring : ring_ready cfg s ((m.data_size + cfg.kMaxDataPerPkt - 1) / cfg.kMaxDataPerPkt)) :
    tx_pre cfg (canonical_items cfg m r) s := by
  have hn : 0 < (m.data_size + cfg.kMaxDataPerPkt - 1) / cfg.kMaxDataPerPkt :=
    Nat.div_pos (by omega) hC
  refine ⟨?_, by rw [canonical_items_length]; exact hsz, ?_⟩
  · intro hnil
    have := canonical_items_length cfg m r
    rw [hnil] at this
    simp only [List.length_nil] at this
    omega
  · intro k item hk
    obtain ⟨hlt, hitem⟩ := canonical_items_get cfg m r k item hk
    have hkS := lt_ceil cfg.kMaxDataPerPkt m.data_size k hC hlt
    obtain ⟨hcap, hslots⟩ := hring
    obtain ⟨r1, r2, r3, r4, r5⟩ := hslots k hlt
    subst hitem
    refine ⟨hvalid, Nat.min_le_left _ _, ?_, by omega, r1, r2, r3, r4, fun _ => r5⟩
    refine Nat.le_trans (Nat.mod_le _ _) ?_
    simp only
    omega

/-- **C4.** For every valid message of size `S ≥ 1`, with
`C = kMaxDataPerPkt > 0` and `n = ceil(S / C)` within the ring capacity,
`tx_burst` over the canonical item list (item `i` has offset `i * C` and
`min C (S - i * C)` data bytes, `i < n`) returns and has filled exactly `n`
descriptors: the chain handed to the device is the slots `0, ..., n - 1`,
slots from `n` on are untouched; descriptor 0 has one fragment, which starts
at header 0 and runs through the first `min C S` payload bytes that follow
the header; every other descriptor `k` has two fragments, header `k` and the
payload slice of `min C (S - k * C)` bytes at byte `k * C`; and the payload
ranges of the descriptors, concatenated in packet order, are exactly the
bytes `0, ..., S - 1` of the message, each once. Header 0 is assumed to sit
directly in front of the payload, and the payload to lie in the 64-bit
address space. -/
theorem tx_burst_segments (cfg : Config) (m : MsgBuffer) (r : raw_routing_info_t)
    (s : RawTransport) (hC : 0 < cfg.kMaxDataPerPkt) (hS : 1 ≤ m.data_size)
    (hvalid : m.is_valid = true)
    (hlayout : m.get_pkthdr_0 + cfg.sizeof_pkthdr = m.buf)
    (hfit : cfg.sizeof_pkthdr + cfg.kMaxDataPerPkt < 2 ^ 32)
    (hsz : (m.data_size + cfg.kMaxDataPerPkt - 1) / cfg.kMaxDataPerPkt < 2 ^ 64)
    (hspace : m.buf + m.data_size ≤ 2 ^ 64)
    (hring : ring_ready cfg s ((m.data_size + cfg.kMaxDataPerPkt - 1) / cfg.kMaxDataPerPkt)) :
    ∃ s', tx_burst cfg (canonical_items cfg m r) 0 s = .ok s' ∧
      (canonical_items cfg m r).length
        = (m.data_size + cfg.kMaxDataPerPkt - 1) / cfg.kMaxDataPerPkt ∧
      (∃ wr sgl, s'.hw_log = s.hw_log ++ [HwCall.post_send 0 wr sgl] ∧
        ∀ fuel, (m.data_size + cfg.kMaxDataPerPkt - 1) / cfg.kMaxDataPerPkt ≤ fuel →
          wr_chain wr fuel (some 0)
            = List.range ((m.data_size + cfg.kMaxDataPerPkt - 1) / cfg.kMaxDataPerPkt)) ∧
      (∀ j, (m.data_size + cfg.kMaxDataPerPkt - 1) / cfg.kMaxDataPerPkt ≤ j →
        s'.send_wr j = s.send_wr j ∧ s'.send_sgl j = s.send_sgl j) ∧
      ((s'.send_wr 0).num_sge = 1 ∧
        (s'.send_sgl 0 0).addr = m.get_pkthdr_0 ∧
        (s'.send_sgl 0 0).addr + cfg.sizeof_pkthdr = m.buf ∧
        (s'.send_sgl 0 0).length = cfg.sizeof_pkthdr + min cfg.kMaxDataPerPkt m.data_size) ∧
      (∀ k, 0 < k → k < (m.data_size + cfg.kMaxDataPerPkt - 1) / cfg.kMaxDataPerPkt →
        (s'.send_wr k).num_sge = 2 ∧
        (s'.send_sgl k 0).addr = m.get_pkthdr_n k ∧
        (s'.send_sgl k 0).length = cfg.sizeof_pkthdr ∧
        (s'.send_sgl k 1).addr = m.buf + k * cfg.kMaxDataPerPkt ∧
        (s'.send_sgl k 1).length
          = min cfg.kMaxDataPerPkt (m.data_size - k * cfg.kMaxDataPerPkt)) ∧
      (∀ k, k < (m.data_size + cfg.kMaxDataPerPkt - 1) / cfg.kMaxDataPerPkt →
        payload_range cfg (s'.send_wr k) (s'.send_sgl k)
          = (m.buf + k * cfg.kMaxDataPerPkt,
             min cfg.kMaxDataPerPkt (m.data_size - k * cfg.kMaxDataPerPkt))) ∧
      ((List.range ((m.data_size + cfg.kMaxDataPerPkt - 1) / cfg.kMaxDataPerPkt)).map
          fun k => range_addrs (payload_range cfg (s'.send_wr k) (s'.send_sgl k))).flatten
        = (List.range m.data_size).map fun j => m.buf + j := by
  have hpre := tx_pre_canonical cfg m r s hC hS hvalid hsz hring
  have hlen := canonical_items_length cfg m r
  have hn : 0 < (m.data_size + cfg.kMaxDataPerPkt - 1) / cfg.kMaxDataPerPkt :=
    Nat.div_pos (by omega) hC
  -- descriptor 0
  have h0 : ((tx_done cfg (canonical_items cfg m r) s).send_wr 0).num_sge = 1 ∧
      ((tx_done cfg (canonical_items cfg m r) s).send_sgl 0 0).addr = m.get_pkthdr_0 ∧
      ((tx_done cfg (canonical_items cfg m r) s).send_sgl 0 0).length
        = cfg.sizeof_pkthdr + min cfg.kMaxDataPerPkt m.data_size := by
    obtain ⟨hwr, hsgl⟩ := tx_done_slot cfg _ s 0 _ (canonical_items_get_lt cfg m r 0 hn)
    rw [hwr, hsgl]
    have hmod : (cfg.sizeof_pkthdr + min cfg.kMaxDataPerPkt m.data_size) % 2 ^ 32
        = cfg.sizeof_pkthdr + min cfg.kMaxDataPerPkt m.data_size :=
      Nat.mod_eq_of_lt (by omega)
    simp only [filled_wr, filled_sgl, Nat.zero_mul, if_true, set_at, Nat.sub_zero]
    exact ⟨trivial, trivial, hmod⟩
  -- the other descriptors
  have hk : ∀ k, 0 < k → k < (m.data_size + cfg.kMaxDataPerPkt - 1) / cfg.kMaxDataPerPkt →
      ((tx_done cfg (canonical_items cfg m r) s).send_wr k).num_sge = 2 ∧
      ((tx_done cfg (canonical_items cfg m r) s).send_sgl k 0).addr = m.get_pkthdr_n k ∧
      ((tx_done cfg (canonical_items cfg m r) s).send_sgl k 0).length = cfg.sizeof_pkthdr ∧
      ((tx_done cfg (canonical_items cfg m r) s).send_sgl k 1).addr
        = m.buf + k * cfg.kMaxDataPerPkt ∧
      ((tx_done cfg (canonical_items cfg m r) s).send_sgl k 1).length
        = min cfg.kMaxDataPerPkt (m.data_size - k * cfg.kMaxDataPerPkt) := by
    intro k hpos hlt
    obtain ⟨hwr, hsgl⟩ := tx_done_slot cfg _ s k _ (canonical_items_get_lt cfg m r k hlt)
    rw [hwr, hsgl]
    have hoff : k * cfg.kMaxDataPerPkt ≠ 0 := Nat.mul_ne_zero (by omega) (by omega)
    have hm1 : cfg.sizeof_pkthdr % 2 ^ 32 = cfg.sizeof_pkthdr := Nat.mod_eq_of_lt (by omega)
    have hm2 : min cfg.kMaxDataPerPkt (m.data_size - k * cfg.kMaxDataPerPkt) % 2 ^ 32
        = min cfg.kMaxDataPerPkt (m.data_size - k * cfg.kMaxDataPerPkt) :=
      Nat.mod_eq_of_lt (by omega)
    have hdiv : k * cfg.kMaxDataPerPkt / cfg.kMaxDataPerPkt = k := Nat.mul_div_cancel k hC
    have hkS := lt_ceil cfg.kMaxDataPerPkt m.data_size k hC hlt
    have hm3 : (m.buf + k * cfg.kMaxDataPerPkt) % 2 ^ 64 = m.buf + k * cfg.kMaxDataPerPkt :=
      Nat.mod_eq_of_lt (by omega)
    simp only [filled_wr, filled_sgl, hoff, if_false, set_at, hdiv]
    simp only [Nat.reducePow] at hm1 hm2 hm3
    simp [hm1, hm2, hm3]
  -- payload ranges
  have hpay : ∀ k, k < (m.data_size + cfg.kMaxDataPerPkt - 1) / cfg.kMaxDataPerPkt →
      payload_range cfg ((tx_done cfg (canonical_items cfg m r) s).send_wr k)
          ((tx_done cfg (canonical_items cfg m r) s).send_sgl k)
        = (m.buf + k * cfg.kMaxDataPerPkt,
           min cfg.kMaxDataPerPkt (m.data_size - k * cfg.kMaxDataPerPkt)) := by
    intro k hlt
    by_cases hz : k = 0
    · subst hz
      obtain ⟨a, b, c⟩ := h0
      simp only [payload_range, a, if_true, b, c, hlayout, Nat.zero_mul, Nat.add_zero,
        Nat.sub_zero, Nat.add_sub_cancel_left]
    · obtain ⟨a, _, _, d, e⟩ := hk k (by omega) hlt
      simp only [payload_range, a, d, e]
      simp
  refine ⟨tx_done cfg (canonical_items cfg m r) s,
    by simp [tx_burst_run cfg _ 0 s hpre], hlen, ?_, ?_, ?_, hk, hpay, ?_⟩
  · refine ⟨cut_wr cfg (canonical_items cfg m r) s,
      (tx_fill_all cfg 0 (canonical_items cfg m r) s).send_sgl, rfl, ?_⟩
    intro fuel hf
    have := wr_chain_cut cfg (canonical_items cfg m r) s hpre fuel (by rw [hlen]; exact hf)
    rw [this, hlen]
  · intro j hj
    exact tx_fill_all_outside cfg (canonical_items cfg m r) 0 s j
      (Or.inr (by rw [hlen]; omega))
  · obtain ⟨a, b, c⟩ := h0
    exact ⟨a, b, by rw [b, hlayout], c⟩
  · have hcov := chunks_cover cfg.kMaxDataPerPkt m.data_size m.buf
      ((m.data_size + cfg.kMaxDataPerPkt - 1) / cfg.kMaxDataPerPkt)
    have hge := ceil_mul_ge cfg.kMaxDataPerPkt m.data_size hC
    rw [Nat.min_eq_left hge] at hcov
    rw [← hcov]
    congr 1
    apply List.map_congr_left
    intro k hkmem
    rw [hpay k (List.mem_range.mp hkmem)]
    rfl

theorem ring_ready_w : ring_ready cfg_w st_w 3 :=
  ⟨by decide, fun _ _ => ⟨rfl, rfl, rfl, rfl, rfl⟩⟩

/-- Witness of C4: a 3000-byte message with `kMaxDataPerPkt = 1024` gives
three descriptors with 1, 2 and 2 fragments and payload ranges of 1024, 1024
and 952 bytes at offsets 0, 1024 and 2048 of the payload at address 4096. -/
theorem tx_burst_segments_witness :
    ∃ s', tx_burst cfg_w (canonical_items cfg_w msg_w rinfo_w) 0 st_w = .ok s' ∧
      (canonical_items cfg_w msg_w rinfo_w).length = 3 ∧
      (s'.send_wr 0).num_sge = 1 ∧ (s'.send_wr 1).num_sge = 2 ∧ (s'.send_wr 2).num_sge = 2 ∧
      payload_range cfg_w (s'.send_wr 0) (s'.send_sgl 0) = (4096, 1024) ∧
      payload_range cfg_w (s'.send_wr 1) (s'.send_sgl 1) = (4096 + 1024, 1024) ∧
      payload_range cfg_w (s'.send_wr 2) (s'.send_sgl 2) = (4096 + 2048, 952) ∧
      ((List.range ((msg_w.data_size + cfg_w.kMaxDataPerPkt - 1) / cfg_w.kMaxDataPerPkt)).map
          fun k => range_addrs (payload_range cfg_w (s'.send_wr k) (s'.send_sgl k))).flatten
        = (List.range msg_w.data_size).map fun j => msg_w.buf + j := by
  obtain ⟨s', hrun, hlen, _, _, h0, hk, hpay, hcat⟩ :=
    tx_burst_segments cfg_w msg_w rinfo_w st_w (by decide) (by decide) rfl rfl (by decide)
      (by decide) (by decide) ring_ready_w
  have p0 := hpay 0 (by decide)
  have p1 := hpay 1 (by decide)
  have p2 := hpay 2 (by decide)
  have n1 := (hk 1 (by decide) (by decide)).1
  have n2 := (hk 2 (by decide) (by decide)).1
  refine ⟨s', hrun, hlen, h0.1, n1, n2, ?_, ?_, ?_, hcat⟩
  · rw [p0]; rfl
  · rw [p1]; rfl
  · rw [p2]; rfl

/-! ## Completion tracking and receive replenishment -/

/-- **C7.** For every state in which the forward distance `delta` from the
recorded cursor to the cursor just read satisfies
`0 < delta < kNumRxRingEntries`, `rx_burst` returns exactly `delta`, sets the
polling slot index to `(cqe_idx + 1) % kRecvCQDepth` and stores the cursor
just read as the previous cursor; nothing else changes. -/
theorem rx_burst_advances (cfg : Config) (s : RawTransport)
    (hpos : 0 < get_cqe_cycle_delta cfg s.prev_snapshot
      (snapshot_cqe (s.recv_cqe_arr s.cqe_idx)))
    (hlt : get_cqe_cycle_delta cfg s.prev_snapshot (snapshot_cqe (s.recv_cqe_arr s.cqe_idx))
      < cfg.kNumRxRingEntries) :
    (rx_burst cfg s).1
      = get_cqe_cycle_delta cfg s.prev_snapshot (snapshot_cqe (s.recv_cqe_arr s.cqe_idx)) ∧
    (rx_burst cfg s).2.cqe_idx = (s.cqe_idx + 1) % cfg.kRecvCQDepth ∧
    (rx_burst cfg s).2.prev_snapshot = snapshot_cqe (s.recv_cqe_arr s.cqe_idx) ∧
    (rx_burst cfg s).2 =
      { s with cqe_idx := (s.cqe_idx + 1) % cfg.kRecvCQDepth,
               prev_snapshot := snapshot_cqe (s.recv_cqe_arr s.cqe_idx) } := by
  have hc : ¬ (get_cqe_cycle_delta cfg s.prev_snapshot
        (snapshot_cqe (s.recv_cqe_arr s.cqe_idx)) = 0
      ∨ get_cqe_cycle_delta cfg s.prev_snapshot (snapshot_cqe (s.recv_cqe_arr s.cqe_idx))
        ≥ cfg.kNumRxRingEntries) := by omega
  simp only [rx_burst, hc, if_false, and_self]

/-- Witness of C7: recorded cursor 100, cursor read 105, so five new
completions. -/
theorem rx_burst_advances_witness :
    (rx_burst cfg_w st_rx).1 = 5 ∧ (rx_burst cfg_w st_rx).2.cqe_idx = 1 ∧
    (rx_burst cfg_w st_rx).2.prev_snapshot = 105 :=
  have h := rx_burst_advances cfg_w st_rx (by decide) (by decide)
  ⟨h.1, h.2.1, h.2.2.1⟩

/-- **C8.** For every state in which the computed forward distance is 0 or at
least `kNumRxRingEntries`, `rx_burst` returns 0 and leaves the whole state,
the polling slot index and the recorded cursor included, unchanged. -/
theorem rx_burst_no_new (cfg : Config) (s : RawTransport)
    (h : get_cqe_cycle_delta cfg s.prev_snapshot (snapshot_cqe (s.recv_cqe_arr s.cqe_idx)) = 0 ∨
      cfg.kNumRxRingEntries
        ≤ get_cqe_cycle_delta cfg s.prev_snapshot (snapshot_cqe (s.recv_cqe_arr s.cqe_idx))) :
    (rx_burst cfg s).1 = 0 ∧
    (rx_burst cfg s).2.cqe_idx = s.cqe_idx ∧
    (rx_burst cfg s).2.prev_snapshot = s.prev_snapshot ∧
    (rx_burst cfg s).2 = s := by
  have hc : get_cqe_cycle_delta cfg s.prev_snapshot (snapshot_cqe (s.recv_cqe_arr s.cqe_idx)) = 0
      ∨ get_cqe_cycle_delta cfg s.prev_snapshot (snapshot_cqe (s.recv_cqe_arr s.cqe_idx))
        ≥ cfg.kNumRxRingEntries := h
  simp only [rx_burst, hc, if_true, and_self]

/-- Witness of C8: a cursor 3000 ahead of the recorded one, with a ring of
2048 entries, is not consumed. -/
theorem rx_burst_no_new_witness :
    (rx_burst cfg_w st_rx_far).1 = 0 ∧
    (rx_burst cfg_w st_rx_far).2.cqe_idx = st_rx_far.cqe_idx ∧
    (rx_burst cfg_w st_rx_far).2.prev_snapshot = st_rx_far.prev_snapshot ∧
    (rx_burst cfg_w st_rx_far).2 = st_rx_far :=
  rx_burst_no_new cfg_w st_rx_far (by decide)

/-- **C9.** Two `rx_burst` calls in a row, with no completion to report
since the recorded cursor (the forward distance read is 0, or is out of
range) and none in between, both return 0. And for every `k` with
`0 < k < kNumRxRingEntries`: when exactly `k` completions have become visible
(the forward distance from the recorded cursor to the cursor read is `k`),
the next `rx_burst` returns `k`, and the call after it, with no further
completion (the cursor it reads is at distance 0 from the cursor just
recorded), returns 0. -/
theorem rx_burst_sequence (cfg : Config) (s : RawTransport) :
    (get_cqe_cycle_delta cfg s.prev_snapshot (snapshot_cqe (s.recv_cqe_arr s.cqe_idx)) = 0 ∨
      cfg.kNumRxRingEntries
        ≤ get_cqe_cycle_delta cfg s.prev_snapshot (snapshot_cqe (s.recv_cqe_arr s.cqe_idx)) →
      (rx_burst cfg s).1 = 0 ∧ (rx_burst cfg (rx_burst cfg s).2).1 = 0) ∧
    (∀ k, 0 < k → k < cfg.kNumRxRingEntries →
      get_cqe_cycle_delta cfg s.prev_snapshot (snapshot_cqe (s.recv_cqe_arr s.cqe_idx)) = k →
      get_cqe_cycle_delta cfg (snapshot_cqe (s.recv_cqe_arr s.cqe_idx))
        (snapshot_cqe (s.recv_cqe_arr ((s.cqe_idx + 1) % cfg.kRecvCQDepth))) = 0 →
      (rx_burst cfg s).1 = k ∧ (rx_burst cfg (rx_burst cfg s).2).1 = 0) := by
  constructor
  · intro h0
    have hc : get_cqe_cycle_delta cfg s.prev_snapshot
          (snapshot_cqe (s.recv_cqe_arr s.cqe_idx)) = 0 ∨
        get_cqe_cycle_delta cfg s.prev_snapshot (snapshot_cqe (s.recv_cqe_arr s.cqe_idx))
          ≥ cfg.kNumRxRingEntries := h0
    have h1 : rx_burst cfg s = (0, s) := by simp only [rx_burst, hc, if_true]
    rw [h1]
    exact ⟨rfl, by simp only [rx_burst, hc, if_true]⟩
  · intro k hpos hlt hk hnext
    have hc : ¬ (k = 0 ∨ k ≥ cfg.kNumRxRingEntries) := by omega
    have h1 : rx_burst cfg s =
        (k, { s with cqe_idx := (s.cqe_idx + 1) % cfg.kRecvCQDepth,
                     prev_snapshot := snapshot_cqe (s.recv_cqe_arr s.cqe_idx) }) := by
      simp only [rx_burst, hk, hc, if_false]
    rw [h1]
    refine ⟨rfl, ?_⟩
    simp only [rx_burst, hnext, true_or, if_true]

/-- Witness of C9: with recorded cursor 0 and cursor 0 read, two calls return
0 and 0; with recorded cursor 100 and every entry showing cursor 105, the
first call returns 5 and the second returns 0. -/
theorem rx_burst_sequence_witness :
    ((rx_burst cfg_w st_w).1 = 0 ∧ (rx_burst cfg_w (rx_burst cfg_w st_w).2).1 = 0) ∧
    ((rx_burst cfg_w st_rx).1 = 5 ∧ (rx_burst cfg_w (rx_burst cfg_w st_rx).2).1 = 0) :=
  ⟨(rx_burst_sequence cfg_w st_w).1 (by decide),
   (rx_burst_sequence cfg_w st_rx).2 5 (by decide) (by decide) (by decide) (by decide)⟩

/-- **C10 (amended).** For every state, every `n` and every return code of
the device, with the owed counter plus `n` taken as the `size_t` sum the code
computes (modulo `2 ^ 64`): if that sum is below `kStridesPerWQE`,
`post_recvs(n)` issues no NIC call and leaves the pool cursor unchanged; if
it is at or above `kStridesPerWQE`, `post_recvs(n)` issues exactly one NIC
call, a receive post of one pool entry at the current cursor, and, the post
having returned 0, sets the cursor to `(mp_sge_idx + 1) % kRQDepth`. -/
theorem post_recvs_threshold (cfg : Config) (s : RawTransport) (n : Nat) (ret : Int) :
    ((s.recvs_to_post + n) % 2 ^ 64 < cfg.kStridesPerWQE →
      ∃ s', post_recvs cfg n ret s = .ok s' ∧ s'.hw_log = s.hw_log ∧
        s'.mp_sge_idx = s.mp_sge_idx) ∧
    (cfg.kStridesPerWQE ≤ (s.recvs_to_post + n) % 2 ^ 64 →
      run_log (post_recvs cfg n ret s) = s.hw_log ++ [HwCall.recv_burst s.mp_sge_idx 1] ∧
      (ret = 0 → ∃ s', post_recvs cfg n ret s = .ok s' ∧
        s'.hw_log = s.hw_log ++ [HwCall.recv_burst s.mp_sge_idx 1] ∧
        s'.mp_sge_idx = (s.mp_sge_idx + 1) % cfg.kRQDepth)) ∧
    (s.recvs_to_post + n < 2 ^ 64 → (s.recvs_to_post + n) % 2 ^ 64 = s.recvs_to_post + n) := by
  refine ⟨?_, ?_, fun h => Nat.mod_eq_of_lt h⟩
  · intro hlt
    refine ⟨{ s with recvs_to_post := (s.recvs_to_post + n) % 2 ^ 64 }, ?_, rfl, rfl⟩
    simp only [post_recvs, hlt, if_true]
  · intro hge
    have hn : ¬ (s.recvs_to_post + n) % 2 ^ 64 < cfg.kStridesPerWQE := by omega
    constructor
    · by_cases hr : ret = 0
      · simp only [post_recvs, hn, if_false, hr, ne_eq, not_true_eq_false, run_log]
      · simp only [post_recvs, hn, if_false, hr, ne_eq, not_false_eq_true, if_true, run_log]
    · intro hr
      refine ⟨{ s with
          recvs_to_post := (s.recvs_to_post + n) % 2 ^ 64,
          hw_log := s.hw_log ++ [HwCall.recv_burst s.mp_sge_idx 1],
          mp_sge_idx := (s.mp_sge_idx + 1) % cfg.kRQDepth }, ?_, rfl, rfl⟩
      simp only [post_recvs, hn, if_false, hr, ne_eq, not_true_eq_false]

/-- Witness of C10 (amended): with a threshold of 512, three buffers owed
post nothing; 512 buffers owed give one post at cursor 0 and move the cursor
to 1. -/
theorem post_recvs_threshold_witness :
    (∃ s', post_recvs cfg_w 3 0 st_w = .ok s' ∧ s'.hw_log = st_w.hw_log ∧
        s'.mp_sge_idx = st_w.mp_sge_idx) ∧
    (∃ s', post_recvs cfg_w 512 0 st_w = .ok s' ∧
        s'.hw_log = st_w.hw_log ++ [HwCall.recv_burst st_w.mp_sge_idx 1] ∧
        s'.mp_sge_idx = (st_w.mp_sge_idx + 1) % cfg_w.kRQDepth) :=
  ⟨(post_recvs_threshold cfg_w st_w 3 0).1 (by decide),
   ((post_recvs_threshold cfg_w st_w 512 0).2.1 (by decide)).2 rfl⟩

/-- Counterexample to C10 as stated: one buffer is owed and
`post_recvs(2 ^ 64 - 1)` is called with a threshold of 512. The owed counter
plus `n` is `2 ^ 64`, at or above the threshold, yet the `size_t` sum wraps
to 0 and the call returns without any NIC call and without moving the
cursor. And a call that reaches the threshold but whose post the device
rejects stops at the assertion after the post, before the cursor is set. -/
theorem post_recvs_threshold_counterexample :
    (cfg_w.kStridesPerWQE ≤ st_owed.recvs_to_post + 18446744073709551615 ∧
      ∃ s', post_recvs cfg_w 18446744073709551615 0 st_owed = .ok s' ∧
        s'.hw_log = st_owed.hw_log ∧ s'.mp_sge_idx = st_owed.mp_sge_idx ∧
        s'.recvs_to_post = 0) ∧
    (cfg_w.kStridesPerWQE ≤ st_w.recvs_to_post + 512 ∧
      post_recvs cfg_w 512 (-1) st_w
        = .error ⟨ErrKind.assert_failed, st_w.hw_log ++ [HwCall.recv_burst 0 1]⟩) :=
  ⟨⟨by decide, _, rfl, rfl, rfl, rfl⟩, by decide, rfl⟩

/-- One accepted call of `post_recvs`: the counter becomes the wrapped sum and
at most one receive post is added, exactly when the sum reaches the stride
threshold. -/
theorem post_recvs_step (cfg : Config) (s : RawTransport) (n : Nat) :
    ∃ s', post_recvs cfg n 0 s = .ok s' ∧
      s'.recvs_to_post = (s.recvs_to_post + n) % 2 ^ 64 ∧
      recv_posts s'.hw_log = recv_posts s.hw_log +
        (if cfg.kStridesPerWQE ≤ (s.recvs_to_post + n) % 2 ^ 64 then 1 else 0) := by
  by_cases hlt : (s.recvs_to_post + n) % 2 ^ 64 < cfg.kStridesPerWQE
  · have hn : ¬ cfg.kStridesPerWQE ≤ (s.recvs_to_post + n) % 2 ^ 64 := by omega
    refine ⟨{ s with recvs_to_post := (s.recvs_to_post + n) % 2 ^ 64 }, ?_, rfl, ?_⟩
    · simp only [post_recvs, hlt, if_true]
    · simp only [hn, if_false, Nat.add_zero]
  · have hge : cfg.kStridesPerWQE ≤ (s.recvs_to_post + n) % 2 ^ 64 := by omega
    refine ⟨{ s with
        recvs_to_post := (s.recvs_to_post + n) % 2 ^ 64,
        hw_log := s.hw_log ++ [HwCall.recv_burst s.mp_sge_idx 1],
        mp_sge_idx := (s.mp_sge_idx + 1) % cfg.kRQDepth }, ?_, rfl, ?_⟩
    · simp only [post_recvs, hlt, if_false, ne_eq, not_true_eq_false]
    · simp only [hge, if_true, recv_posts, List.filter_append, List.length_append]
      rfl

/-- The invariant of a sequence of accepted calls, started with a counter that
is at most the total `T` requested before. -/
theorem post_recvs_seq_inv (cfg : Config) (ns : List Nat) :
    ∀ (s : RawTransport) (T : Nat), s.recvs_to_post ≤ T →
      ∃ s', post_recvs_seq cfg ns s = .ok s' ∧
        s'.recvs_to_post ≤ T + ns.sum ∧
        recv_posts s.hw_log ≤ recv_posts s'.hw_log ∧
        recv_posts s'.hw_log ≤ recv_posts s.hw_log + ns.length ∧
        (recv_posts s.hw_log < recv_posts s'.hw_log → cfg.kStridesPerWQE ≤ T + ns.sum) := by
  induction ns with
  | nil =>
    intro s T hT
    exact ⟨s, rfl, by simpa using hT, Nat.le_refl _, by simp,
      fun h => absurd h (Nat.lt_irrefl _)⟩
  | cons n ns ih =>
    intro s T hT
    obtain ⟨s1, hs1, hc1, hp1⟩ := post_recvs_step cfg s n
    have hle : (s.recvs_to_post + n) % 2 ^ 64 ≤ s.recvs_to_post + n := Nat.mod_le _ _
    have hc1' : s1.recvs_to_post ≤ T + n := by omega
    obtain ⟨s', hs', hc, hmono, hcount, hfirst⟩ := ih s1 (T + n) hc1'
    refine ⟨s', ?_, ?_, ?_, ?_, ?_⟩
    · simp only [post_recvs_seq, hs1, hs']
    · simp only [List.sum_cons]; omega
    · split at hp1 <;> omega
    · simp only [List.length_cons]; split at hp1 <;> omega
    · intro hlt
      simp only [List.sum_cons]
      by_cases hk : cfg.kStridesPerWQE ≤ (s.recvs_to_post + n) % 2 ^ 64
      · have : 0 ≤ ns.sum := Nat.zero_le _
        omega
      · simp only [hk, if_false, Nat.add_zero] at hp1
        have := hfirst (by omega)
        omega

/-- Once the counter has reached the threshold and as long as it does not
wrap, every accepted call adds one receive post. -/
theorem post_recvs_seq_saturated (cfg : Config) (ns : List Nat) :
    ∀ (s : RawTransport), cfg.kStridesPerWQE ≤ s.recvs_to_post →
      s.recvs_to_post + ns.sum < 2 ^ 64 →
      ∃ s', post_recvs_seq cfg ns s = .ok s' ∧
        recv_posts s'.hw_log = recv_posts s.hw_log + ns.length := by
  induction ns with
  | nil => intro s _ _; exact ⟨s, rfl, rfl⟩
  | cons n ns ih =>
    intro s hk hsum
    simp only [List.sum_cons] at hsum
    obtain ⟨s1, hs1, hc1, hp1⟩ := post_recvs_step cfg s n
    have hmod : (s.recvs_to_post + n) % 2 ^ 64 = s.recvs_to_post + n :=
      Nat.mod_eq_of_lt (by omega)
    rw [hmod] at hc1 hp1
    have hge : cfg.kStridesPerWQE ≤ s.recvs_to_post + n := by omega
    simp only [hge, if_true] at hp1
    obtain ⟨s', hs', hp⟩ := ih s1 (by omega) (by omega)
    refine ⟨s', ?_, ?_⟩
    · simp only [post_recvs_seq, hs1, hs']
    · simp only [List.length_cons]; omega

/-- **C11.** Evaluation of `post_recvs` with a stride of 512, from an owed
count of zero, every post being accepted. The calls `post_recvs(511)`,
`post_recvs(1)`, `post_recvs(1)` request 513 buffers and issue two receive
posts, for the pool entries 0 and 1: none by the first call, one by the
second, which completes the stride, and one more by the third, the counter
still standing at the stride (it ends at 513); `2 * 512` exceeds 513. The
calls `post_recvs(512)`, `post_recvs(0)` issue two posts for 512 buffers. -/
theorem post_recvs_seq_overposts :
    st_w.recvs_to_post = 0 ∧ st_w.hw_log = [] ∧ cfg_w.kStridesPerWQE = 512 ∧
    (∃ s', post_recvs_seq cfg_w [511] st_w = .ok s' ∧
      recv_posts s'.hw_log = 0 ∧ s'.recvs_to_post = 511) ∧
    (∃ s', post_recvs_seq cfg_w [511, 1] st_w = .ok s' ∧
      recv_posts s'.hw_log = 1 ∧ s'.recvs_to_post = 512) ∧
    (∃ s', post_recvs_seq cfg_w [511, 1, 1] st_w = .ok s' ∧
      s'.hw_log = [HwCall.recv_burst 0 1, HwCall.recv_burst 1 1] ∧
      recv_posts s'.hw_log = 2 ∧ s'.recvs_to_post = 513 ∧
      ¬ (recv_posts s'.hw_log * cfg_w.kStridesPerWQE ≤ 511 + 1 + 1)) ∧
    (∃ s', post_recvs_seq cfg_w [512, 0] st_w = .ok s' ∧
      recv_posts s'.hw_log = 2 ∧ s'.recvs_to_post = 512 ∧
      ¬ (recv_posts s'.hw_log * cfg_w.kStridesPerWQE ≤ 512 + 0)) :=
  ⟨rfl, rfl, rfl, ⟨_, rfl, rfl, rfl⟩, ⟨_, rfl, rfl, rfl⟩, ⟨_, rfl, rfl, rfl, rfl, by decide⟩,
    ⟨_, rfl, rfl, rfl, by decide⟩⟩

/-- `post_recvs` returns whenever no post is due or the post is accepted. -/
theorem post_recvs_returns (cfg : Config) (s : RawTransport) (n : Nat) (ret : Int)
    (h : ret = 0 ∨ (s.recvs_to_post + n) % 2 ^ 64 < cfg.kStridesPerWQE) :
    ∃ s', post_recvs cfg n ret s = .ok s' := by
  by_cases hlt : (s.recvs_to_post + n) % 2 ^ 64 < cfg.kStridesPerWQE
  · exact ⟨{ s with recvs_to_post := (s.recvs_to_post + n) % 2 ^ 64 },
      by simp only [post_recvs, hlt, if_true]⟩
  · have hr : ret = 0 := by
      rcases h with h | h
      · exact h
      · exact absurd h hlt
    exact ⟨{ s with
        recvs_to_post := (s.recvs_to_post + n) % 2 ^ 64,
        hw_log := s.hw_log ++ [HwCall.recv_burst s.mp_sge_idx 1],
        mp_sge_idx := (s.mp_sge_idx + 1) % cfg.kRQDepth },
      by simp only [post_recvs, hlt, if_false, hr, ne_eq, not_true_eq_false]⟩

/-- **C15 (amended).** `post_recvs` never takes a stride off the owed-buffer
counter and never resets it on a post: for every state, every `n` and every
return code, whenever `post_recvs(n)` returns, and it returns whenever no
post is due or the post is accepted, the counter equals its previous value
plus `n` as a `size_t` sum (modulo `2 ^ 64`), which is the previous value
plus `n` itself when that is below `2 ^ 64`, whether or not a post was issued
in that call. -/
theorem post_recvs_counter (cfg : Config) (s : RawTransport) (n : Nat) (ret : Int) :
    (ret = 0 ∨ (s.recvs_to_post + n) % 2 ^ 64 < cfg.kStridesPerWQE →
      ∃ s', post_recvs cfg n ret s = .ok s') ∧
    (∀ s', post_recvs cfg n ret s = .ok s' →
      s'.recvs_to_post = (s.recvs_to_post + n) % 2 ^ 64 ∧
      (s.recvs_to_post + n < 2 ^ 64 → s'.recvs_to_post = s.recvs_to_post + n)) := by
  constructor
  · exact post_recvs_returns cfg s n ret
  · intro s' hs'
    have hc : s'.recvs_to_post = (s.recvs_to_post + n) % 2 ^ 64 := by
      by_cases hlt : (s.recvs_to_post + n) % 2 ^ 64 < cfg.kStridesPerWQE
      · simp only [post_recvs, hlt, if_true, Except.ok.injEq] at hs'
        rw [← hs']
      · by_cases hr : ret = 0
        · simp only [post_recvs, hlt, if_false, hr, ne_eq, not_true_eq_false,
            Except.ok.injEq] at hs'
          rw [← hs']
        · simp only [post_recvs, hlt, if_false, hr, ne_eq, not_false_eq_true, if_true] at hs'
          cases hs'
    exact ⟨hc, fun h => by rw [hc, Nat.mod_eq_of_lt h]⟩

/-- Witness of C15 (amended): from an owed count of zero, `post_recvs(512)`
issues a post and leaves the counter at 512. -/
theorem post_recvs_counter_witness :
    ∃ s', post_recvs cfg_w 512 0 st_w = .ok s' ∧ s'.recvs_to_post = 0 + 512 := by
  obtain ⟨s', hs'⟩ := (post_recvs_counter cfg_w st_w 512 0).1 (Or.inl rfl)
  exact ⟨s', hs', ((post_recvs_counter cfg_w st_w 512 0).2 s' hs').2 (by decide)⟩

/-- Counterexample to C15 as stated: with one buffer owed,
`post_recvs(2 ^ 64 - 1)` returns with the counter at 0, not at the previous
value plus `n`. -/
theorem post_recvs_counter_counterexample :
    ∃ s', post_recvs cfg_w 18446744073709551615 0 st_owed = .ok s' ∧
      s'.recvs_to_post = 0 ∧
      s'.recvs_to_post ≠ st_owed.recvs_to_post + 18446744073709551615 :=
  ⟨_, rfl, rfl, by decide⟩

/-- **C18.** If the polling slot index is below `kRecvCQDepth` and the
receive pool cursor is below `kRQDepth`, then after any `rx_burst` call
(whatever cursor it reads) and after any `post_recvs` call that returns (any
`n`) both bounds still hold; `post_recvs` returns whenever no post is due or
the post is accepted; `rx_burst` changes neither the pool cursor nor the owed
counter, and `post_recvs` changes neither the polling slot index nor the
recorded cursor. -/
theorem cursor_bounds_preserved (cfg : Config) (s : RawTransport) (n : Nat) (ret : Int)
    (hcq : s.cqe_idx < cfg.kRecvCQDepth) (hrq : s.mp_sge_idx < cfg.kRQDepth) :
    ((rx_burst cfg s).2.cqe_idx < cfg.kRecvCQDepth ∧
      (rx_burst cfg s).2.mp_sge_idx < cfg.kRQDepth ∧
      (rx_burst cfg s).2.mp_sge_idx = s.mp_sge_idx ∧
      (rx_burst cfg s).2.recvs_to_post = s.recvs_to_post) ∧
    (ret = 0 ∨ (s.recvs_to_post + n) % 2 ^ 64 < cfg.kStridesPerWQE →
      ∃ s', post_recvs cfg n ret s = .ok s') ∧
    (∀ s', post_recvs cfg n ret s = .ok s' →
      s'.cqe_idx < cfg.kRecvCQDepth ∧ s'.mp_sge_idx < cfg.kRQDepth ∧
      s'.cqe_idx = s.cqe_idx ∧ s'.prev_snapshot = s.prev_snapshot) := by
  refine ⟨?_, ?_, ?_⟩
  · by_cases hd : get_cqe_cycle_delta cfg s.prev_snapshot
        (snapshot_cqe (s.recv_cqe_arr s.cqe_idx)) = 0 ∨
      get_cqe_cycle_delta cfg s.prev_snapshot (snapshot_cqe (s.recv_cqe_arr s.cqe_idx))
        ≥ cfg.kNumRxRingEntries
    · simp only [rx_burst, hd, if_true, hcq, hrq, and_self]
    · simp only [rx_burst, hd, if_false, hrq, and_self, and_true]
      exact Nat.mod_lt _ (by omega)
  · exact post_recvs_returns cfg s n ret
  · intro s' hs'
    by_cases hlt : (s.recvs_to_post + n) % 2 ^ 64 < cfg.kStridesPerWQE
    · simp only [post_recvs, hlt, if_true, Except.ok.injEq] at hs'
      rw [← hs']
      exact ⟨hcq, hrq, rfl, rfl⟩
    · by_cases hr : ret = 0
      · simp only [post_recvs, hlt, if_false, hr, ne_eq, not_true_eq_false,
          Except.ok.injEq] at hs'
        rw [← hs']
        exact ⟨hcq, Nat.mod_lt _ (by omega), rfl, rfl⟩
      · simp only [post_recvs, hlt, if_false, hr, ne_eq, not_false_eq_true, if_true] at hs'
        cases hs'

/-- Witness of C18: a state that reads five new completions and then posts a
full stride keeps both cursors in range. -/
theorem cursor_bounds_preserved_witness :
    (rx_burst cfg_w st_rx).2.cqe_idx < cfg_w.kRecvCQDepth ∧
    (rx_burst cfg_w st_rx).2.mp_sge_idx < cfg_w.kRQDepth ∧
    (∃ s', post_recvs cfg_w 512 0 st_rx = .ok s' ∧
      s'.cqe_idx < cfg_w.kRecvCQDepth ∧ s'.mp_sge_idx < cfg_w.kRQDepth) := by
  have h := cursor_bounds_preserved cfg_w st_rx 512 0 (by decide) (by decide)
  obtain ⟨s', hs'⟩ := h.2.1 (Or.inl rfl)
  exact ⟨h.1.1, h.1.2.1, s', hs', (h.2.2 s' hs').1, (h.2.2 s' hs').2.1⟩

/-! ## Headers -/

theorem tx_fill_all_append (cfg : Config) (l1 l2 : List tx_burst_item_t) :
    ∀ (i : Nat) (s : RawTransport),
      tx_fill_all cfg i (l1 ++ l2) s
        = tx_fill_all cfg (i + l1.length) l2 (tx_fill_all cfg i l1 s) := by
  induction l1 with
  | nil => intro i s; rfl
  | cons a l1 ih =>
    intro i s
    have e : i + 1 + l1.length = i + (l1.length + 1) := by omega
    have := ih (i + 1) (tx_fill cfg i a s)
    rw [e] at this
    simp only [List.cons_append, tx_fill_all, List.length_cons]
    exact this

/-- The loop keeps the local identity of the transport. -/
theorem tx_fill_all_ident (cfg : Config) (items : List tx_burst_item_t) :
    ∀ (i : Nat) (s : RawTransport),
      (tx_fill_all cfg i items s).resolve = s.resolve ∧
      (tx_fill_all cfg i items s).rpc_id = s.rpc_id := by
  induction items with
  | nil => intro i s; exact ⟨rfl, rfl⟩
  | cons item rest ih =>
    intro i s
    obtain ⟨h1, h2⟩ := ih (i + 1) (tx_fill cfg i item s)
    simp only [tx_fill_all, h1, h2]
    exact ⟨rfl, rfl⟩

/-- An item of a batch splits it into the items before, the item and the
items after. -/
theorem items_split (items : List tx_burst_item_t) (k : Nat) (item : tx_burst_item_t)
    (hk : items[k]? = some item) :
    k < items.length ∧ items = items.take k ++ item :: items.drop (k + 1) := by
  obtain ⟨hlt, hget⟩ := List.getElem?_eq_some_iff.mp hk
  refine ⟨hlt, ?_⟩
  have h1 := List.take_append_drop k items
  have h2 : items.drop k = items[k] :: items.drop (k + 1) := List.drop_eq_getElem_cons hlt
  rw [h2, hget] at h1
  exact h1.symm

/-- The state before iteration `k` of an accepted batch, and the iteration
itself. -/
theorem tx_burst_before (cfg : Config) (items : List tx_burst_item_t) (s : RawTransport)
    (h : tx_pre cfg items s) (k : Nat) (item : tx_burst_item_t)
    (hk : items[k]? = some item) :
    tx_burst_loop cfg 0 (items.take k) s = .ok (tx_fill_all cfg 0 (items.take k) s) ∧
    tx_burst_iter cfg k item (tx_fill_all cfg 0 (items.take k) s)
      = .ok (tx_fill cfg k item (tx_fill_all cfg 0 (items.take k) s)) ∧
    tx_fill_all cfg 0 items s
      = tx_fill_all cfg (k + 1) (items.drop (k + 1))
          (tx_fill cfg k item (tx_fill_all cfg 0 (items.take k) s)) := by
  obtain ⟨hlt, hsplit⟩ := items_split items k item hk
  refine ⟨?_, ?_, ?_⟩
  · apply tx_burst_loop_ok
    intro j it hj
    have hjlt : j < k := by
      have := (List.getElem?_eq_some_iff.mp hj).1
      simp only [List.length_take] at this
      omega
    rw [List.getElem?_take_of_lt hjlt] at hj
    simpa using h.2.2 j it hj
  · apply tx_burst_iter_ok
    exact (tx_asserts_tx_fill_all cfg (items.take k) 0 s k item).mpr (h.2.2 k item hk)
  · have hlen : (items.take k).length = k := by
      simp only [List.length_take]; omega
    conv_lhs => rw [hsplit]
    rw [tx_fill_all_append, hlen, Nat.zero_add]
    rfl

/-- What one iteration leaves in fragment 0 and in the header memory. -/
theorem tx_fill_headers (cfg : Config) (k : Nat) (item : tx_burst_item_t) (s : RawTransport)
    (he : 0 < cfg.sizeof_eth_hdr) (hi : 0 < cfg.sizeof_ipv4_hdr) :
    ((tx_fill cfg k item s).send_sgl k 0).addr = item_pkthdr cfg item ∧
    (tx_fill cfg k item s).hdr_mem (headroom (item_pkthdr cfg item))
      = frame_hdr.eth s.resolve.mac_addr item.routing_info.mac ∧
    (tx_fill cfg k item s).hdr_mem (headroom (item_pkthdr cfg item) + cfg.sizeof_eth_hdr)
      = frame_hdr.ipv4 s.resolve.ipv4_addr item.routing_info.ipv4_addr
          (cfg.kERpcHdrBytes + item.data_bytes) ∧
    (tx_fill cfg k item s).hdr_mem
        (headroom (item_pkthdr cfg item) + cfg.sizeof_eth_hdr + cfg.sizeof_ipv4_hdr)
      = frame_hdr.udp (cfg.kBaseRawUDPPort + s.rpc_id) item.routing_info.udp_port
          (cfg.kERpcHdrBytes + item.data_bytes) := by
  have n1 : headroom (item_pkthdr cfg item)
      ≠ headroom (item_pkthdr cfg item) + cfg.sizeof_eth_hdr := by omega
  have n2 : headroom (item_pkthdr cfg item)
      ≠ headroom (item_pkthdr cfg item) + cfg.sizeof_eth_hdr + cfg.sizeof_ipv4_hdr := by omega
  have n3 : headroom (item_pkthdr cfg item) + cfg.sizeof_eth_hdr
      ≠ headroom (item_pkthdr cfg item) + cfg.sizeof_eth_hdr + cfg.sizeof_ipv4_hdr := by omega
  refine ⟨?_, ?_, ?_, ?_⟩
  · by_cases h0 : item.offset = 0 <;> simp [tx_fill, filled_sgl, item_pkthdr, set_at, h0]
  · simp only [tx_fill, filled_hdr, gen_udp_header, gen_ipv4_header, gen_eth_header, set_at,
      n1, n2, if_false, if_true]
  · simp only [tx_fill, filled_hdr, gen_udp_header, gen_ipv4_header, gen_eth_header, set_at,
      n3, if_false, if_true]
  · simp only [tx_fill, filled_hdr, gen_udp_header, gen_ipv4_header, gen_eth_header, set_at,
      if_true]

/-- **C12.** For every item `k` of an accepted batch, iteration `k` of the
loop runs from the state the earlier items left and ends in a state where:
fragment 0 of slot `k` points at the selected packet header (header 0 for
offset 0, header `offset / kMaxDataPerPkt` otherwise); the link header, with
the local and the peer link address, stands at the start of that header's
headroom; the network header stands directly after it and the transport
header directly after that; both carry the length
`kERpcHdrBytes + data_bytes`; the transport source port is
`kBaseRawUDPPort + rpc_id`; and destination link address, network address
and port are those of the routing info of the item. The slot keeps that
fragment to the end of `tx_burst`, and the headers of the last item are in
memory when `tx_burst` returns. -/
theorem tx_burst_headers (cfg : Config) (items : List tx_burst_item_t) (s : RawTransport)
    (he : 0 < cfg.sizeof_eth_hdr) (hi : 0 < cfg.sizeof_ipv4_hdr)
    (h : tx_pre cfg items s) :
    ∃ s', tx_burst cfg items 0 s = .ok s' ∧
      ∀ k item, items[k]? = some item →
        ∃ sk sk', tx_burst_loop cfg 0 (items.take k) s = .ok sk ∧
          tx_burst_iter cfg k item sk = .ok sk' ∧
          (item.offset = 0 → (sk'.send_sgl k 0).addr = item.msg_buffer.get_pkthdr_0) ∧
          (0 < item.offset → (sk'.send_sgl k 0).addr
            = item.msg_buffer.get_pkthdr_n (item.offset / cfg.kMaxDataPerPkt)) ∧
          sk'.hdr_mem (headroom (sk'.send_sgl k 0).addr)
            = frame_hdr.eth s.resolve.mac_addr item.routing_info.mac ∧
          sk'.hdr_mem (headroom (sk'.send_sgl k 0).addr + cfg.sizeof_eth_hdr)
            = frame_hdr.ipv4 s.resolve.ipv4_addr item.routing_info.ipv4_addr
                (cfg.kERpcHdrBytes + item.data_bytes) ∧
          sk'.hdr_mem (headroom (sk'.send_sgl k 0).addr + cfg.sizeof_eth_hdr
              + cfg.sizeof_ipv4_hdr)
            = frame_hdr.udp (cfg.kBaseRawUDPPort + s.rpc_id) item.routing_info.udp_port
                (cfg.kERpcHdrBytes + item.data_bytes) ∧
          s'.send_sgl k = sk'.send_sgl k ∧
          (k + 1 = items.length → s'.hdr_mem = sk'.hdr_mem) := by
  refine ⟨tx_done cfg items s, by simp [tx_burst_run cfg items 0 s h], ?_⟩
  intro k item hk
  obtain ⟨hloop, hiter, hrest⟩ := tx_burst_before cfg items s h k item hk
  obtain ⟨hlt, _⟩ := items_split items k item hk
  obtain ⟨hres, hrpc⟩ := tx_fill_all_ident cfg (items.take k) 0 s
  obtain ⟨ha, h1, h2, h3⟩ :=
    tx_fill_headers cfg k item (tx_fill_all cfg 0 (items.take k) s) he hi
  rw [hres] at h1 h2
  rw [hrpc] at h3
  refine ⟨_, _, hloop, hiter, ?_, ?_, ?_, ?_, ?_, ?_, ?_⟩
  · intro h0
    rw [ha]
    simp only [item_pkthdr, h0, if_true]
  · intro hpos
    have h0 : item.offset ≠ 0 := by omega
    rw [ha]
    simp only [item_pkthdr, h0, if_false]
  · rw [ha]; exact h1
  · rw [ha]; exact h2
  · rw [ha]; exact h3
  · have : (tx_done cfg items s).send_sgl k = (tx_fill_all cfg 0 items s).send_sgl k := rfl
    rw [this, hrest]
    exact (tx_fill_all_outside cfg _ (k + 1) _ k (Or.inl (Nat.lt_succ_self k))).2
  · intro hlast
    have hdrop : items.drop (k + 1) = [] := by
      apply List.drop_eq_nil_of_le
      omega
    have : (tx_done cfg items s).hdr_mem = (tx_fill_all cfg 0 items s).hdr_mem := rfl
    rw [this, hrest, hdrop]
    rfl

/-- Witness of C12 on the three packets of the 3000-byte message. -/
theorem tx_burst_headers_witness :
    ∃ s', tx_burst cfg_w items_w 0 st_w = .ok s' ∧
      s'.hdr_mem 7154 = frame_hdr.eth 1 11 ∧
      s'.hdr_mem (7154 + 14) = frame_hdr.ipv4 2 12 (16 + 952) ∧
      s'.hdr_mem (7154 + 14 + 20) = frame_hdr.udp (31850 + 3) 13 (16 + 952) ∧
      (s'.send_sgl 2 0).addr = 7154 := by
  obtain ⟨s', hs', hall⟩ := tx_burst_headers cfg_w items_w st_w (by decide) (by decide) tx_pre_w
  obtain ⟨sk, sk', _, _, _, haddr, h1, h2, h3, hsgl, hmem⟩ := hall 2 _ rfl
  have ha : (sk'.send_sgl 2 0).addr = 7154 := haddr (by decide)
  rw [ha] at h1 h2 h3
  have hm : s'.hdr_mem = sk'.hdr_mem := hmem rfl
  refine ⟨s', hs', ?_, ?_, ?_, ?_⟩
  · rw [hm]; exact h1
  · rw [hm]; exact h2
  · rw [hm]; exact h3
  · rw [hsgl]; exact ha

theorem apply_writes_append (ws1 ws2 : List (Nat × frame_hdr)) :
    ∀ mem, apply_writes mem (ws1 ++ ws2) = apply_writes (apply_writes mem ws1) ws2 := by
  induction ws1 with
  | nil => intro mem; rfl
  | cons w ws ih =>
    intro mem
    simp only [List.cons_append, apply_writes]
    exact ih (set_at mem w.1 w.2)

/-- An address that no write names keeps its content. -/
theorem apply_writes_untouched (ws : List (Nat × frame_hdr)) (a : Nat) :
    ∀ mem, (∀ w ∈ ws, w.1 ≠ a) → apply_writes mem ws a = mem a := by
  induction ws with
  | nil => intro mem _; rfl
  | cons w ws ih =>
    intro mem h
    have hw : a ≠ w.1 := fun e => h w (List.mem_cons_self _ _) e.symm
    simp only [apply_writes]
    rw [ih (set_at mem w.1 w.2) (fun w' hw' => h w' (List.mem_cons_of_mem _ hw'))]
    simp only [set_at, hw, if_false]

/-- The content of an address that some write names does not depend on the
memory the writes started from. -/
theorem apply_writes_written (ws : List (Nat × frame_hdr)) (a : Nat) :
    ∀ mem mem', (∃ w ∈ ws, w.1 = a) → apply_writes mem ws a = apply_writes mem' ws a := by
  induction ws with
  | nil => intro mem mem' h; obtain ⟨w, hw, _⟩ := h; simp at hw
  | cons w ws ih =>
    intro mem mem' h
    simp only [apply_writes]
    by_cases hlater : ∃ w' ∈ ws, w'.1 = a
    · exact ih _ _ hlater
    · have hno : ∀ w' ∈ ws, w'.1 ≠ a := fun w' hw' e => hlater ⟨w', hw', e⟩
      have hwa : w.1 = a := by
        obtain ⟨w0, hw0, e0⟩ := h
        rcases List.mem_cons.mp hw0 with e | hmem
        · rw [← e]; exact e0
        · exact absurd e0 (hno w0 hmem)
      rw [apply_writes_untouched ws a _ hno, apply_writes_untouched ws a _ hno]
      simp only [set_at, hwa, if_true]

/-- Writing the same sequence a second time changes nothing. -/
theorem apply_writes_twice (ws : List (Nat × frame_hdr)) (mem : Nat → frame_hdr) :
    apply_writes (apply_writes mem ws) ws = apply_writes mem ws := by
  funext a
  by_cases h : ∃ w ∈ ws, w.1 = a
  · exact apply_writes_written ws a _ _ h
  · exact apply_writes_untouched ws a _ (fun w hw e => h ⟨w, hw, e⟩)

theorem filled_hdr_writes (cfg : Config) (item : tx_burst_item_t) (s : RawTransport) :
    filled_hdr cfg item s
      = apply_writes s.hdr_mem (item_hdr_writes cfg s.resolve s.rpc_id item) := rfl

/-- The header memory after the loop is the memory before it with the writes
of the items applied in order. -/
theorem tx_fill_all_hdr (cfg : Config) (items : List tx_burst_item_t) :
    ∀ (i : Nat) (s : RawTransport),
      (tx_fill_all cfg i items s).hdr_mem
        = apply_writes s.hdr_mem
            ((items.map (item_hdr_writes cfg s.resolve s.rpc_id)).flatten) := by
  induction items with
  | nil => intro i s; rfl
  | cons item rest ih =>
    intro i s
    simp only [tx_fill_all, List.map_cons, List.flatten_cons]
    rw [ih (i + 1) (tx_fill cfg i item s), apply_writes_append]
    rfl

theorem filled_sgl_twice (cfg : Config) (item : tx_burst_item_t) (sgl : Nat → ibv_sge) :
    filled_sgl cfg item (filled_sgl cfg item sgl) = filled_sgl cfg item sgl := by
  funext f
  by_cases h0 : item.offset = 0
  · by_cases hf : f = 0 <;> simp [filled_sgl, h0, set_at, hf]
  · by_cases hf : f = 0
    · simp [filled_sgl, h0, set_at, hf]
    · by_cases hf1 : f = 1 <;> simp [filled_sgl, h0, set_at, hf, hf1]

/-- **C13.** Header generation in `tx_burst` does not depend on history and
is idempotent. For every item and any two states with the same local
identity that pass the checks of an iteration, the iteration leaves the same
contents at the three header addresses of the item, whatever the header
memory held before. And for every accepted batch, a second `tx_burst` on the
same items after the first one returns and leaves the header memory, the
fragment list of every slot of the batch (addresses and lengths), its
fragment count and its inline mark equal to those after the first run. -/
theorem tx_burst_idempotent (cfg : Config) (items : List tx_burst_item_t) (s : RawTransport)
    (h : tx_pre cfg items s) :
    (∀ k item (s1 s2 : RawTransport),
      tx_asserts cfg k item s1 → tx_asserts cfg k item s2 →
      s1.resolve = s2.resolve → s1.rpc_id = s2.rpc_id →
      ∃ s1' s2', tx_burst_iter cfg k item s1 = .ok s1' ∧
        tx_burst_iter cfg k item s2 = .ok s2' ∧
        (s1'.send_sgl k 0).addr = (s2'.send_sgl k 0).addr ∧
        ∀ a, (a = headroom (s1'.send_sgl k 0).addr ∨
              a = headroom (s1'.send_sgl k 0).addr + cfg.sizeof_eth_hdr ∨
              a = headroom (s1'.send_sgl k 0).addr + cfg.sizeof_eth_hdr
                    + cfg.sizeof_ipv4_hdr) →
          s1'.hdr_mem a = s2'.hdr_mem a) ∧
    (∃ s1 s2, tx_burst cfg items 0 s = .ok s1 ∧ tx_burst cfg items 0 s1 = .ok s2 ∧
      s2.hdr_mem = s1.hdr_mem ∧
      ∀ k item, items[k]? = some item →
        s2.send_sgl k = s1.send_sgl k ∧
        (s2.send_wr k).num_sge = (s1.send_wr k).num_sge ∧
        (is_inline (s2.send_wr k) ↔ is_inline (s1.send_wr k))) := by
  constructor
  · intro k item s1 s2 ha1 ha2 hres hrpc
    refine ⟨_, _, tx_burst_iter_ok cfg k item s1 ha1, tx_burst_iter_ok cfg k item s2 ha2,
      ?_, ?_⟩
    · by_cases h0 : item.offset = 0 <;> simp [tx_fill, filled_sgl, set_at, h0]
    · have hp : ((tx_fill cfg k item s1).send_sgl k 0).addr = item_pkthdr cfg item := by
        by_cases h0 : item.offset = 0 <;> simp [tx_fill, filled_sgl, item_pkthdr, set_at, h0]
      intro a ha
      rw [hp] at ha
      have hm1 : (tx_fill cfg k item s1).hdr_mem
          = apply_writes s1.hdr_mem (item_hdr_writes cfg s1.resolve s1.rpc_id item) := rfl
      have hm2 : (tx_fill cfg k item s2).hdr_mem
          = apply_writes s2.hdr_mem (item_hdr_writes cfg s1.resolve s1.rpc_id item) := by
        rw [hres, hrpc]; rfl
      rw [hm1, hm2]
      apply apply_writes_written
      rcases ha with ha | ha | ha
      · exact ⟨_, List.mem_cons_self _ _, ha.symm⟩
      · exact ⟨_, List.mem_cons_of_mem _ (List.mem_cons_self _ _), ha.symm⟩
      · exact ⟨_, List.mem_cons_of_mem _ (List.mem_cons_of_mem _ (List.mem_cons_self _ _)),
          ha.symm⟩
  · have h1 : tx_pre cfg items (tx_done cfg items s) := tx_pre_tx_done cfg items items s h
    refine ⟨tx_done cfg items s, tx_done cfg items (tx_done cfg items s),
      by simp [tx_burst_run cfg items 0 s h],
      by simp [tx_burst_run cfg items 0 _ h1], ?_, ?_⟩
    · obtain ⟨hres, hrpc⟩ := tx_fill_all_ident cfg items 0 s
      have e1 : (tx_done cfg items s).hdr_mem
          = apply_writes s.hdr_mem
              ((items.map (item_hdr_writes cfg s.resolve s.rpc_id)).flatten) :=
        tx_fill_all_hdr cfg items 0 s
      have e2 : (tx_done cfg items (tx_done cfg items s)).hdr_mem
          = apply_writes (tx_done cfg items s).hdr_mem
              ((items.map (item_hdr_writes cfg (tx_done cfg items s).resolve
                (tx_done cfg items s).rpc_id)).flatten) :=
        tx_fill_all_hdr cfg items 0 (tx_done cfg items s)
      have r1 : (tx_done cfg items s).resolve = s.resolve := hres
      have r2 : (tx_done cfg items s).rpc_id = s.rpc_id := hrpc
      rw [e2, r1, r2, e1, apply_writes_twice]
    · intro k item hk
      obtain ⟨w1, g1⟩ := tx_done_slot cfg items s k item hk
      obtain ⟨w2, g2⟩ := tx_done_slot cfg items (tx_done cfg items s) k item hk
      refine ⟨?_, ?_, ?_⟩
      · rw [g2, g1, filled_sgl_twice]
      · rw [w2, w1]
        by_cases h0 : item.offset = 0 <;> simp [filled_wr, h0]
      · rw [w2, w1, filled_wr_inline, filled_wr_inline]

/-- Witness of C13: the three packets of the 3000-byte message are posted
twice; the headers and descriptors after the second run are those after the
first. -/
theorem tx_burst_idempotent_witness :
    ∃ s1 s2, tx_burst cfg_w items_w 0 st_w = .ok s1 ∧ tx_burst cfg_w items_w 0 s1 = .ok s2 ∧
      s2.hdr_mem = s1.hdr_mem ∧
      ∀ k item, items_w[k]? = some item →
        s2.send_sgl k = s1.send_sgl k ∧
        (s2.send_wr k).num_sge = (s1.send_wr k).num_sge ∧
        (is_inline (s2.send_wr k) ↔ is_inline (s1.send_wr k)) :=
  (tx_burst_idempotent cfg_w items_w st_w tx_pre_w).2

/-- **C14.** For every control item of an accepted batch (offset 0 and no
data bytes, on whatever message buffer passes the validity check), `tx_burst`
leaves in the slot of the item a descriptor with exactly one fragment, at
header 0, whose length is `sizeof(pkthdr_t)`; and when `sizeof(pkthdr_t)` is
at most `kMaxInline` the descriptor is marked inline. A batch of one such
item hands exactly one descriptor to the device. -/
theorem tx_burst_control_pkt (cfg : Config) (items : List tx_burst_item_t) (s : RawTransport)
    (hfit : cfg.sizeof_pkthdr + cfg.kMaxDataPerPkt < 2 ^ 32)
    (h : tx_pre cfg items s) :
    ∃ s', tx_burst cfg items 0 s = .ok s' ∧
      (∀ k item, items[k]? = some item → item.offset = 0 → item.data_bytes = 0 →
        (s'.send_wr k).num_sge = 1 ∧
        (s'.send_sgl k 0).addr = item.msg_buffer.get_pkthdr_0 ∧
        (s'.send_sgl k 0).length = cfg.sizeof_pkthdr ∧
        (cfg.sizeof_pkthdr ≤ cfg.kMaxInline → is_inline (s'.send_wr k))) ∧
      (items.length = 1 →
        ∃ wr sgl, s'.hw_log = s.hw_log ++ [HwCall.post_send 0 wr sgl] ∧
          ∀ fuel, 1 ≤ fuel → wr_chain wr fuel (some 0) = [0]) := by
  refine ⟨tx_done cfg items s, by simp [tx_burst_run cfg items 0 s h], ?_, ?_⟩
  · intro k item hk h0 hd
    have hmod : (cfg.sizeof_pkthdr + item.data_bytes) % 2 ^ 32 = cfg.sizeof_pkthdr := by
      rw [hd, Nat.add_zero]
      exact Nat.mod_eq_of_lt (by omega)
    obtain ⟨hwr, hsgl⟩ := tx_done_slot cfg items s k item hk
    rw [hwr, hsgl]
    refine ⟨by simp [filled_wr, h0], by simp [filled_sgl, h0, set_at], ?_, ?_⟩
    · simp only [filled_sgl, h0, if_true, set_at]
      exact hmod
    · intro hin
      rw [filled_wr_inline, hmod]
      exact ⟨h0, hin⟩
  · intro hlen
    refine ⟨cut_wr cfg items s, (tx_fill_all cfg 0 items s).send_sgl, rfl, ?_⟩
    intro fuel hf
    have := wr_chain_cut cfg items s h fuel (by omega)
    rw [this, hlen]
    rfl

/-- Witness of C14: one control packet on a fake buffer; the header is 58
bytes and the inline limit is 60. -/
theorem tx_burst_control_pkt_witness :
    ∃ s', tx_burst cfg_w items_ctrl 0 st_w = .ok s' ∧
      (s'.send_wr 0).num_sge = 1 ∧ (s'.send_sgl 0 0).length = 58 ∧
      is_inline (s'.send_wr 0) ∧
      (∃ wr sgl, s'.hw_log = st_w.hw_log ++ [HwCall.post_send 0 wr sgl] ∧
        ∀ fuel, 1 ≤ fuel → wr_chain wr fuel (some 0) = [0]) := by
  obtain ⟨s', hs', hall, hone⟩ := tx_burst_control_pkt cfg_w items_ctrl st_w (by decide)
    (tx_pre_of_check cfg_w st_w items_ctrl (List.ne_nil_of_length_pos (by decide)) (by decide)
      (by decide))
  obtain ⟨a, _, c, d⟩ := hall 0 _ rfl rfl rfl
  exact ⟨s', hs', a, c, d (by decide), hone rfl⟩

/-! ## Bounds and frame -/

/-- An iteration of the loop that does not stop has passed every check. -/
theorem tx_burst_iter_checks (cfg : Config) (i : Nat) (item : tx_burst_item_t)
    (s s' : RawTransport) (h : tx_burst_iter cfg i item s = .ok s') :
    tx_asserts cfg i item s := by
  by_cases h1 : item.msg_buffer.is_valid = true
  swap
  · simp [tx_burst_iter, c_assert, h1, bind, Except.bind] at h
  by_cases h2 : item.data_bytes ≤ cfg.kMaxDataPerPkt
  swap
  · simp [tx_burst_iter, c_assert, h1, h2, bind, Except.bind] at h
  by_cases h3 : (item.offset + item.data_bytes) % 2 ^ 64 ≤ item.msg_buffer.data_size
  swap
  · simp only [Nat.reducePow] at h3
    simp [tx_burst_iter, c_assert, h1, h2, h3, bind, Except.bind] at h
  have h3' := h3
  simp only [Nat.reducePow] at h3'
  by_cases h4 : i < cfg.kPostlist
  swap
  · simp [tx_burst_iter, c_assert, c_index, h1, h2, h3', h4, bind, Except.bind] at h
  by_cases h5 : (s.send_wr i).next = some (i + 1)
  swap
  · simp [tx_burst_iter, c_assert, c_index, h1, h2, h3', h4, h5, bind, Except.bind] at h
  by_cases h6 : (s.send_wr i).opcode = IBV_WR_SEND
  swap
  · simp [tx_burst_iter, c_assert, c_index, h1, h2, h3', h4, h5, h6, bind, Except.bind] at h
  by_cases h7 : (s.send_wr i).sg_list = i
  swap
  · simp [tx_burst_iter, c_assert, c_index, h1, h2, h3', h4, h5, h6, h7, bind, Except.bind] at h
  by_cases h8 : (s.send_sgl i 0).lkey = 0
  swap
  · by_cases h0 : item.offset = 0
    · simp only [h0, Nat.zero_add] at h3'
      simp [tx_burst_iter, c_assert, c_index, get_signaled_flag, h0, h1, h2, h3', h4, h5, h6, h7,
        h8, set_at_same, set_at_set_at, bind, Except.bind] at h
    · simp [tx_burst_iter, c_assert, c_index, get_signaled_flag, h0, h1, h2, h3', h4, h5, h6, h7,
        h8, set_at_same, set_at_set_at, bind, Except.bind] at h
  refine ⟨h1, h2, h3, h4, h5, h6, h7, h8, ?_⟩
  intro h0
  by_contra h9
  simp [tx_burst_iter, c_assert, c_index, get_signaled_flag, h0, h1, h2, h3', h4, h5, h6, h7,
    h8, h9, set_at_same, set_at_set_at, set_at_other, bind, Except.bind] at h

/-- The packet index of a byte that is not the end of a message made of full
packets is below the number of packets. -/
theorem pkt_index_lt (C S off : Nat) (hC : 0 < C) (hle : off ≤ S)
    (hend : ¬ (off = S ∧ S % C = 0)) : off / C < (S + C - 1) / C := by
  rw [Nat.div_lt_iff_lt_mul hC]
  have hceil := ceil_mul_ge C S hC
  by_cases hlt : off < S
  · omega
  · have hS : off = S := by omega
    have hr : S % C ≠ 0 := fun e => hend ⟨hS, e⟩
    have h1 := Nat.div_add_mod S C
    have h2 : S % C < C := Nat.mod_lt S hC
    have e : S + C - 1 = (S % C - 1) + C * (S / C + 1) := by
      have : C * (S / C + 1) = C * (S / C) + C := by ring
      omega
    have hdiv : (S + C - 1) / C = S / C + 1 := by
      rw [e, Nat.add_mul_div_left _ _ hC, Nat.div_eq_of_lt (by omega), Nat.zero_add]
    rw [hdiv, hS]
    have : (S / C + 1) * C = C * (S / C) + C := by ring
    omega

/-- **C16 (amended).** For every transmit item that passes the checks of an
iteration of `tx_burst` (`data_bytes ≤ kMaxDataPerPkt` and
`offset + data_bytes ≤ data_size`, the sum as the code computes it), has
offset above 0, whose `offset + data_bytes` is below `2 ^ 64`, and whose
offset is not the end of a message that consists of full packets
(`offset = data_size` with `data_size` a multiple of `kMaxDataPerPkt`): the
packet index `offset / kMaxDataPerPkt`, which selects the header fragment 0
points at, is strictly below the header count
`ceil(data_size / kMaxDataPerPkt)`, and the payload range
`[offset, offset + data_bytes)`, which fragment 1 starts at, lies inside the
data of the message; the address written there is the `uint64_t` value of
`&buf[offset]`, which is `buf + offset` whenever that is a 64-bit address. -/
theorem tx_burst_iter_in_bounds (cfg : Config) (i : Nat) (item : tx_burst_item_t)
    (s s' : RawTransport) (hrun : tx_burst_iter cfg i item s = .ok s')
    (hC : 0 < cfg.kMaxDataPerPkt) (hoff : 0 < item.offset)
    (hnowrap : item.offset + item.data_bytes < 2 ^ 64)
    (hend : ¬ (item.offset = item.msg_buffer.data_size ∧
      item.msg_buffer.data_size % cfg.kMaxDataPerPkt = 0)) :
    item.offset / cfg.kMaxDataPerPkt
      < (item.msg_buffer.data_size + cfg.kMaxDataPerPkt - 1) / cfg.kMaxDataPerPkt ∧
    item.offset + item.data_bytes ≤ item.msg_buffer.data_size ∧
    (s'.send_sgl i 0).addr = item.msg_buffer.get_pkthdr_n (item.offset / cfg.kMaxDataPerPkt) ∧
    (s'.send_sgl i 1).addr = (item.msg_buffer.buf + item.offset) % 2 ^ 64 ∧
    (item.msg_buffer.buf + item.offset < 2 ^ 64 →
      (s'.send_sgl i 1).addr = item.msg_buffer.buf + item.offset) := by
  have hchk := tx_burst_iter_checks cfg i item s s' hrun
  have hsum : item.offset + item.data_bytes ≤ item.msg_buffer.data_size := by
    have := hchk.2.2.1
    rw [Nat.mod_eq_of_lt hnowrap] at this
    exact this
  have hok := tx_burst_iter_ok cfg i item s hchk
  rw [hrun] at hok
  have hs' : s' = tx_fill cfg i item s := by
    cases hok
    rfl
  have h0 : item.offset ≠ 0 := by omega
  have haddr : ((tx_fill cfg i item s).send_sgl i 1).addr
      = (item.msg_buffer.buf + item.offset) % 2 ^ 64 := by
    simp [tx_fill, filled_sgl, set_at, h0]
  refine ⟨pkt_index_lt _ _ _ hC (by omega) hend, hsum, ?_, ?_, ?_⟩
  · rw [hs']; simp [tx_fill, filled_sgl, set_at, h0]
  · rw [hs']; exact haddr
  · intro hlt
    rw [hs', haddr, Nat.mod_eq_of_lt hlt]

/-- Witness of C16 (amended): the third packet of the 3000-byte message,
offset 2048 and 952 bytes, uses header index 2 of 3. -/
theorem tx_burst_iter_in_bounds_witness :
    (2048 : Nat) / 1024 < (3000 + 1024 - 1) / 1024 ∧ 2048 + 952 ≤ 3000 ∧
    ∃ s', tx_burst_iter cfg_w 2
        { routing_info := rinfo_w, msg_buffer := msg_w, offset := 2048, data_bytes := 952 }
        st_w = .ok s' ∧
      (s'.send_sgl 2 0).addr = msg_w.get_pkthdr_n 2 ∧ (s'.send_sgl 2 1).addr = 4096 + 2048 :=
  have h := tx_burst_iter_in_bounds cfg_w 2
    { routing_info := rinfo_w, msg_buffer := msg_w, offset := 2048, data_bytes := 952 }
    st_w _ (tx_burst_iter_ok cfg_w 2 _ st_w (by decide)) (by decide) (by decide) (by decide)
    (by decide)
  ⟨h.1, h.2.1, _, tx_burst_iter_ok cfg_w 2 _ st_w (by decide), h.2.2.1,
    h.2.2.2.2 (by decide)⟩

/-- Counterexample to C16 as stated. A zero-byte packet at offset 1024 of a
1024-byte message passes the checks of the iteration, and its header index 1
is not below the header count 1. A one-byte packet at offset `2 ^ 64 - 1` of
a 3000-byte message passes them too, because the sum wraps to 0, and neither
is its index below the header count 3 nor its payload inside the message. -/
theorem tx_burst_iter_in_bounds_counterexample :
    ((∃ s', tx_burst_iter cfg_w 0 item_end st_w = .ok s') ∧
      item_end.data_bytes ≤ cfg_w.kMaxDataPerPkt ∧
      item_end.offset + item_end.data_bytes ≤ item_end.msg_buffer.data_size ∧
      0 < item_end.offset ∧
      ¬ (item_end.offset / cfg_w.kMaxDataPerPkt
          < (item_end.msg_buffer.data_size + cfg_w.kMaxDataPerPkt - 1)
              / cfg_w.kMaxDataPerPkt)) ∧
    ((∃ s', tx_burst_iter cfg_w 0 item_wrap st_w = .ok s') ∧
      0 < item_wrap.offset ∧
      ¬ (item_wrap.offset / cfg_w.kMaxDataPerPkt
          < (item_wrap.msg_buffer.data_size + cfg_w.kMaxDataPerPkt - 1)
              / cfg_w.kMaxDataPerPkt) ∧
      ¬ (item_wrap.offset + item_wrap.data_bytes ≤ item_wrap.msg_buffer.data_size)) :=
  ⟨⟨⟨_, tx_burst_iter_ok cfg_w 0 item_end st_w (by decide)⟩, by decide, by decide,
      by decide, by decide⟩,
   ⟨⟨_, tx_burst_iter_ok cfg_w 0 item_wrap st_w (by decide)⟩, by decide, by decide,
      by decide⟩⟩

/-- What filling a slot leaves of its fragment list. -/
theorem filled_sgl_frame (cfg : Config) (item : tx_burst_item_t) (sgl : Nat → ibv_sge) :
    (∀ f, (filled_sgl cfg item sgl f).lkey = (sgl f).lkey) ∧
    (∀ f, 2 ≤ f → filled_sgl cfg item sgl f = sgl f) ∧
    (item.offset = 0 → filled_sgl cfg item sgl 1 = sgl 1) := by
  refine ⟨?_, ?_, ?_⟩
  · intro f
    by_cases h0 : item.offset = 0
    · by_cases hf : f = 0 <;> simp [filled_sgl, h0, set_at, hf]
    · by_cases hf : f = 0
      · simp [filled_sgl, h0, set_at, hf]
      · by_cases hf1 : f = 1 <;> simp [filled_sgl, h0, set_at, hf, hf1]
  · intro f hf
    have n0 : f ≠ 0 := by omega
    have n1 : f ≠ 1 := by omega
    by_cases h0 : item.offset = 0 <;> simp [filled_sgl, h0, set_at, n0, n1]
  · intro h0
    simp [filled_sgl, h0, set_at]

/-- **C17.** For every accepted batch of `N ≥ 1` items whose submission
succeeds, `tx_burst` returns and leaves every descriptor slot with index at
least `N` unchanged, work request and fragment list alike; in a slot with
index below `N` the opcode, the fragment-list pointer and the link are what
they were, every fragment keeps its `lkey`, fragment entries from index 2 on
are unchanged, so that only `send_flags`, `num_sge` and the address and
length of fragments 0 and 1 can differ; and for an item with offset 0 the
second fragment entry of its slot is unchanged. -/
theorem tx_burst_frame (cfg : Config) (items : List tx_burst_item_t) (s : RawTransport)
    (h : tx_pre cfg items s) :
    1 ≤ items.length ∧
    ∃ s', tx_burst cfg items 0 s = .ok s' ∧
      (∀ j, items.length ≤ j →
        s'.send_wr j = s.send_wr j ∧ s'.send_sgl j = s.send_sgl j) ∧
      (∀ k item, items[k]? = some item →
        (s'.send_wr k).opcode = (s.send_wr k).opcode ∧
        (s'.send_wr k).sg_list = (s.send_wr k).sg_list ∧
        (s'.send_wr k).next = (s.send_wr k).next ∧
        (∀ f, (s'.send_sgl k f).lkey = (s.send_sgl k f).lkey) ∧
        (∀ f, 2 ≤ f → s'.send_sgl k f = s.send_sgl k f) ∧
        (item.offset = 0 → s'.send_sgl k 1 = s.send_sgl k 1)) := by
  obtain ⟨hpos, _, _⟩ := tx_pre_last cfg items s h
  refine ⟨hpos, tx_done cfg items s, by simp [tx_burst_run cfg items 0 s h], ?_, ?_⟩
  · intro j hj
    exact tx_fill_all_outside cfg items 0 s j (Or.inr (by omega))
  · intro k item hk
    obtain ⟨hwr, hsgl⟩ := tx_done_slot cfg items s k item hk
    obtain ⟨n1, n2, n3⟩ := filled_wr_next cfg (s.nb_tx + k) item (s.send_wr k)
    obtain ⟨f1, f2, f3⟩ := filled_sgl_frame cfg item (s.send_sgl k)
    rw [hwr, hsgl]
    exact ⟨n2, n3, n1, f1, f2, f3⟩

/-- Witness of C17 on the batch of a control packet, a full first packet and
a continuation packet: slot 3 is untouched and the second fragment entry of
slot 0 still holds its earlier content. -/
theorem tx_burst_frame_witness :
    ∃ s', tx_burst cfg_w items_mix 0 st_w = .ok s' ∧
      s'.send_wr 3 = st_w.send_wr 3 ∧ s'.send_sgl 3 = st_w.send_sgl 3 ∧
      s'.send_sgl 0 1 = st_w.send_sgl 0 1 ∧
      (s'.send_wr 2).opcode = IBV_WR_SEND ∧ (s'.send_wr 2).next = some 3 := by
  obtain ⟨_, s', hs', hout, hin⟩ := tx_burst_frame cfg_w items_mix st_w tx_pre_mix
  obtain ⟨_, _, _, _, _, h01⟩ := hin 0 _ rfl
  obtain ⟨hop, _, hnext, _, _, _⟩ := hin 2 _ rfl
  exact ⟨s', hs', (hout 3 (by decide)).1, (hout 3 (by decide)).2, h01 rfl, hop, hnext⟩

end erpc
